import Mathlib

/-!
# Verification of the s2j_led_driver device-control core

This file gives a shallow embedding of the parts of
`custom_components/s2j_led_driver/registry.py` and
`custom_components/s2j_led_driver/manager.py` that the verified properties
talk about, and proves or refutes each property against that embedding.

Modelling conventions:

* Python `dict`s keyed by entity id are modelled as insertion-ordered
  association lists (`List`), with lookup returning the first match and
  upsert replacing in place / appending at the end, as CPython dicts do.
* Entity records created by the registry normalisation code always carry
  every field, so entities are modelled as structures with total fields;
  `dict.get(key, default)` on payloads is modelled with `Option` fields
  (`none` = key absent).  Where presence of a key with value `None` is
  observably different from the key being absent a nested `Option` is used.
* Python `int` is ℤ (arbitrary precision, no wrap-around).
* Python `float` is modelled exactly: every float produced by the code in
  scope is a dyadic rational, and each arithmetic step performs IEEE-754
  round-to-nearest, ties-to-even at 53 significant bits (`roundDouble`),
  with an unbounded exponent range (the computations in scope never reach
  the subnormal or overflow range for the inputs the theorems evaluate).
  `int()` on a float truncates toward zero (`truncQ`).
* `metadata` dictionaries are modelled only where a claim depends on them:
  the controller serial log (`metadata["serial_log"]`) is modelled as a
  list of (timestamp, direction) entries with the logged payload abstracted
  away; other metadata, and the `ssr` / `patch_panel` registry sections,
  are not touched by any code path in scope.
* Wall-clock / monotonic timestamps are passed in as explicit parameters.
-/

namespace S2J

/-! ## Exact model of CPython double-precision arithmetic -/

/-- Number of binary digits of `n`, computed with explicit fuel so that the
definition is structural and kernel-reducible (`bitLen n` uses fuel `n`,
which always suffices since the argument at least halves each step). -/
def bitLenAux : Nat → Nat → Nat
  | 0, _ => 0
  | fuel + 1, n => if n = 0 then 0 else bitLenAux fuel (n / 2) + 1

/-- Number of binary digits of `n`: `0` for `0`, and otherwise the unique `L`
with `2 ^ (L - 1) ≤ n < 2 ^ L`. -/
def bitLen (n : Nat) : Nat := bitLenAux n n

/-- The rational `2 ^ e` for an integer exponent, via kernel-reducible
natural-number powers. -/
def pow2 (e : ℤ) : ℚ :=
  if 0 ≤ e then ((2 ^ e.toNat : ℕ) : ℚ) else 1 / ((2 ^ (-e).toNat : ℕ) : ℚ)

/-- For `q ≠ 0`, the floor of the base-2 logarithm of `|q|`: the unique `e`
with `2 ^ e ≤ |q| < 2 ^ (e + 1)`. -/
def qexp (q : ℚ) : ℤ :=
  let est : ℤ := (bitLen q.num.natAbs : ℤ) - (bitLen q.den : ℤ)
  if pow2 est ≤ |q| then est else est - 1

/-- Round a rational to the nearest integer, ties to even. -/
def rne (m : ℚ) : ℤ :=
  let k := ⌊m⌋
  let f := m - (k : ℚ)
  if f < 1 / 2 then k
  else if 1 / 2 < f then k + 1
  else if k % 2 = 0 then k else k + 1

/-- Correct rounding of a rational to an IEEE-754 binary64 value (round to
nearest, ties to even, 53-bit significand, unbounded exponent range),
returned as the exact rational value of the resulting double. -/
def roundDouble (q : ℚ) : ℚ :=
  if q = 0 then 0
  else
    let e := qexp q
    let m := |q| * pow2 (52 - e)
    let r : ℚ := (rne m : ℚ) * pow2 (e - 52)
    if 0 < q then r else -r

/-- Python `int()` applied to a float value: truncation toward zero. -/
def truncQ (q : ℚ) : ℤ := if q < 0 then ⌈q⌉ else ⌊q⌋

/-- The per-output PWM computation of `LedRegistry.build_group_pwm_map`
(registry.py lines 952-963): coerce an inverted clamp range
(`if max_pwm < min_pwm: max_pwm = min_pwm`), then evaluate the Python
expression `int(min_pwm + (max_pwm - min_pwm) * (brightness_value / 100.0))`.
Every float operation of that expression (the int→float conversions of the
operands, the division, the multiplication and the addition) rounds its
exact result to the nearest double, which `roundDouble` reproduces exactly;
`brightness` is already clamped to `[0, 100]` by the caller so its
conversion is exact. -/
def pwmScalar (minPwm maxPwm brightness : ℤ) : ℤ :=
  let mx := if maxPwm < minPwm then minPwm else maxPwm
  let d1 := roundDouble ((brightness : ℚ) / 100)
  let d2 := roundDouble (roundDouble ((mx - minPwm : ℤ) : ℚ) * d1)
  let d3 := roundDouble (roundDouble ((minPwm : ℤ) : ℚ) + d2)
  truncQ d3

/-- The PWM formula exactly as the specification states it:
"`pwm = min_pwm + (max_pwm - min_pwm) × (brightness/100)` ... truncated to an
integer", read as exact rational arithmetic.  Kept separate from `pwmScalar`
(the source's double-precision computation) so the two can be compared. -/
def pwmSpecFormula (minPwm maxPwm brightness : ℤ) : ℤ :=
  truncQ ((minPwm : ℚ) + ((maxPwm - minPwm : ℤ) : ℚ) * ((brightness : ℚ) / 100))

/-! ## Data model

The registry's entity tree (registry.py).  Outputs are always produced by
`LedRegistry._normalize_driver_outputs`, so every field is present. -/

/-- One Output slot of a Driver (registry.py `_normalize_driver_outputs`). -/
structure Output where
  id : String
  slot : ℤ
  name : String
  channels : List ℤ
  disabled : Bool
  faulty : Bool
  pwm : ℤ
  level : ℤ
  minPwm : ℤ
  maxPwm : ℤ
  targetPwm : ℤ
deriving DecidableEq

/-- One PWM driver chip (registry.py driver records). -/
structure Driver where
  id : String
  name : String
  controllerId : Option String
  driverIndex : ℤ
  outputs : List Output
deriving DecidableEq

/-- A named group of output ids (registry.py group records). -/
structure Group where
  id : String
  name : String
  ledIds : List String
  isOn : Bool
  brightness : ℤ
deriving DecidableEq

/-- One entry of a controller's `metadata["serial_log"]`
(registry.py `async_append_serial_log`); the logged payload itself is
abstracted away, only the fact and shape of the append matter here. -/
structure SerialLogEntry where
  timestamp : ℤ
  direction : String
deriving DecidableEq

/-- A physical controller board (registry.py controller records); of its
metadata only the serial log is modelled. -/
structure Controller where
  id : String
  name : String
  port : Option String
  baudrate : ℤ
  pollingEnabled : Bool
  hasCanInterface : Bool
  serialLog : List SerialLogEntry
deriving DecidableEq

/-- A physical switch panel (registry.py switch records; metadata omitted). -/
structure Switch where
  id : String
  name : String
  switch : ℤ
  type : String
  buttonCount : ℤ
  hasBuzzer : Bool
  flashLeds : Bool
deriving DecidableEq

/-- A mapped physical button (registry.py button records; metadata omitted). -/
structure Button where
  id : String
  name : String
  switchId : String
  switch : ℤ
  mask : ℤ
  groupId : Option String
deriving DecidableEq

/-- A learn-mode discovery record (registry.py learned button records). -/
structure LearnedButton where
  id : String
  controllerId : Option String
  switch : ℤ
  mask : ℤ
  count : ℤ
  firstSeen : ℤ
  lastSeen : ℤ
deriving DecidableEq

/-- The registry's persisted data tree (`LedRegistry._data`).  The `ssr` and
`patch_panel` sections are untouched by every code path in scope and are
omitted. -/
structure Registry where
  controllers : List Controller
  drivers : List Driver
  groups : List Group
  switches : List Switch
  buttons : List Button
  learnedButtons : List LearnedButton
deriving DecidableEq

/-- The empty registry (`LedRegistry.__init__`). -/
def emptyRegistry : Registry :=
  { controllers := [], drivers := [], groups := [], switches := [], buttons := [],
    learnedButtons := [] }

/-! ## Generic helpers for dict-as-association-list -/

/-- Replace the entries with the given key in place, or append a new entry:
the insertion behaviour of assignment into a CPython dict. -/
def upsertBy {α : Type} (key : α → String) (k : String) (v : α) (l : List α) : List α :=
  if l.any (fun a => key a = k) then l.map (fun a => if key a = k then v else a)
  else l ++ [v]

/-- First value with the given key in an association list (CPython dict
lookup). -/
def alistFind? {κ β : Type} [DecidableEq κ] : List (κ × β) → κ → Option β
  | [], _ => none
  | q :: t, k => if q.1 = k then some q.2 else alistFind? t k

/-- Set a key in an association list: replace the binding in place when the
key is present, else append at the end — the assignment behaviour of a
CPython dict (the lists built here always have pairwise-distinct keys). -/
def alistSet {κ β : Type} [DecidableEq κ] : List (κ × β) → κ → β → List (κ × β)
  | [], k, v => [(k, v)]
  | q :: t, k, v => if q.1 = k then (k, v) :: t else q :: alistSet t k v

/-- Insert into a list sorted by integer key (used for Python `sorted(...)`
over dict items, whose keys are distinct). -/
def insertByKey {β : Type} (x : ℤ × β) : List (ℤ × β) → List (ℤ × β)
  | [] => [x]
  | y :: ys => if x.1 ≤ y.1 then x :: y :: ys else y :: insertByKey x ys

/-- Sort an association list by its integer keys. -/
def sortByKey {β : Type} (l : List (ℤ × β)) : List (ℤ × β) :=
  l.foldr insertByKey []

/-- Insert an integer into a sorted duplicate-free list. -/
def insertSortedDedup (x : ℤ) : List ℤ → List ℤ
  | [] => [x]
  | y :: ys =>
    if x = y then y :: ys
    else if x < y then x :: y :: ys
    else y :: insertSortedDedup x ys

/-- `_normalize_channels` (registry.py lines 31-38): collect the distinct
integer channels and return them sorted (non-integer entries cannot occur in
the typed model). -/
def normalizeChannels (cs : List ℤ) : List ℤ :=
  cs.foldl (fun acc c => insertSortedDedup c acc) []

/-- Python truthiness of an optional string (`None` and `""` are falsy). -/
def strTruthy : Option String → Bool
  | none => false
  | some s => !(s = "")

/-- ASCII lowering of a string (`str.lower()` on the ASCII identifiers and
command words this component compares). -/
def lowerStr (s : String) : String := String.mk (s.data.map Char.toLower)

/-- Python `a.get(k) or default` for string values: the stored value if it is
truthy, else the default. -/
def orStr (a : Option String) (b : String) : String :=
  match a with
  | some s => if s = "" then b else s
  | none => b

/-! ## Registry lookups (registry.py) -/

/-- `LedRegistry.get_group` — dict lookup by id. -/
def getGroup (r : Registry) (groupId : String) : Option Group :=
  r.groups.find? (fun g => g.id = groupId)

/-- `LedRegistry.get_output_entry` — first (driver, output) pair whose output
id matches, iterating drivers in insertion order then outputs in slot order. -/
def getOutputEntry (drivers : List Driver) (outputId : String) : Option (Driver × Output) :=
  match drivers with
  | [] => none
  | d :: rest =>
    match d.outputs.find? (fun o => o.id = outputId) with
    | some o => some (d, o)
    | none => getOutputEntry rest outputId

/-- `LedRegistry.resolve_output_ids` — resolve each id, dropping the ones that
match no output. -/
def resolveOutputIds (drivers : List Driver) (ids : List String) : List (Driver × Output) :=
  ids.filterMap (getOutputEntry drivers)

/-- Effective channel list of an output as used by the group map builders:
`list(output.get("channels") or [])`, falling back to `[slot]` when empty
(the slot is always present on a normalised output). -/
def effChannels (o : Output) : List ℤ :=
  if o.channels.isEmpty then [o.slot] else o.channels

/-! ## build_group_pwm_map and build_group_channel_map (registry.py) -/

/-- Write the PWM value into each listed channel position of a 4-slot array,
skipping out-of-range positions (`if 0 <= channel_index < len(slots)`). -/
def writeSlots (slots : List ℤ) (chans : List ℤ) (v : ℤ) : List ℤ :=
  chans.foldl
    (fun s c => if 0 ≤ c ∧ c.toNat < s.length then s.set c.toNat v else s) slots

/-- The controller → driver-index → value mapping type produced by the group
map builders (`dict[str, dict[int, list[int]]]`). -/
def GroupMap : Type := List (String × List (ℤ × List ℤ))

/-- One step of the `build_group_pwm_map` loop body for a resolved
(driver, output) pair. -/
def pwmMapStep (includeDisabled includeFaulty : Bool) (b : ℤ)
    (m : List (String × List (ℤ × List ℤ))) (d : Driver) (o : Output) :
    List (String × List (ℤ × List ℤ)) :=
  if !includeDisabled && o.disabled then m
  else if !includeFaulty && o.faulty then m
  else
    match d.controllerId with
    | none => m
    | some cid =>
      let chans := effChannels o
      if chans.isEmpty then m
      else
        let pwm := pwmScalar o.minPwm o.maxPwm b
        let inner := (alistFind? m cid).getD []
        let slots := (alistFind? inner d.driverIndex).getD [-1, -1, -1, -1]
        let slots2 := writeSlots slots chans pwm
        alistSet m cid (alistSet inner d.driverIndex slots2)

/-- The brightness used by `build_group_pwm_map`: the explicit argument if
given, else the group's stored brightness, clamped to [0, 100]
(registry.py lines 921-925). -/
def clampBrightness (brightness : Option ℤ) (g : Group) : ℤ :=
  max 0 (min 100 (match brightness with | some b => b | none => g.brightness))

/-- `LedRegistry.build_group_pwm_map` (registry.py lines 904-974): resolve the
group's outputs, apply the disabled/faulty filters, clamp the brightness to
[0, 100], and accumulate per-controller/driver 4-slot PWM arrays where slots
not addressed by the group stay `-1`. -/
def buildGroupPwmMap (r : Registry) (groupId : String)
    (includeDisabled includeFaulty : Bool) (brightness : Option ℤ) :
    List (String × List (ℤ × List ℤ)) :=
  match getGroup r groupId with
  | none => []
  | some g =>
    (resolveOutputIds r.drivers g.ledIds).foldl
      (fun m p =>
        pwmMapStep includeDisabled includeFaulty (clampBrightness brightness g) m p.1 p.2)
      []

/-- One step of the `build_group_channel_map` loop body. -/
def channelMapStep (includeDisabled includeFaulty : Bool)
    (m : List (String × List (ℤ × List ℤ))) (d : Driver) (o : Output) :
    List (String × List (ℤ × List ℤ)) :=
  if !includeDisabled && o.disabled then m
  else if !includeFaulty && o.faulty then m
  else
    match d.controllerId with
    | none => m
    | some cid =>
      let chans := effChannels o
      if chans.isEmpty then m
      else
        let inner := (alistFind? m cid).getD []
        let chanSet := (alistFind? inner d.driverIndex).getD []
        let chanSet2 := chans.foldl (fun s c => insertSortedDedup c s) chanSet
        alistSet m cid (alistSet inner d.driverIndex chanSet2)

/-- `LedRegistry.build_group_channel_map` (registry.py lines 850-902): like
the PWM map but collecting the sorted set of addressed channels per driver
(the source accumulates a `set` and sorts it at the end; accumulating into a
sorted duplicate-free list yields the same result). -/
def buildGroupChannelMap (r : Registry) (groupId : String)
    (includeDisabled includeFaulty : Bool) :
    List (String × List (ℤ × List ℤ)) :=
  match getGroup r groupId with
  | none => []
  | some g =>
    (resolveOutputIds r.drivers g.ledIds).foldl
      (fun m p => channelMapStep includeDisabled includeFaulty m p.1 p.2) []

/-! ## Driver upsert and output normalisation (registry.py lines 749-843) -/

/-- Payload dict for one output inside a driver upsert; `none` = key absent
(`int(...)` conversions of present values are assumed to succeed, as the
`try/except` in the source only guards non-integer payloads). -/
structure OutputPayload where
  id : Option String
  slot : Option ℤ
  name : Option String
  channels : Option (List ℤ)
  disabled : Option Bool
  faulty : Option Bool
  pwm : Option ℤ
  level : Option ℤ
  minPwm : Option ℤ
  maxPwm : Option ℤ
  targetPwm : Option ℤ
deriving DecidableEq

/-- The all-absent output payload (an `incoming_by_slot` miss yields `{}`). -/
def emptyOutputPayload : OutputPayload :=
  { id := none, slot := none, name := none, channels := none, disabled := none,
    faulty := none, pwm := none, level := none, minPwm := none, maxPwm := none,
    targetPwm := none }

/-- `existing_by_slot` lookup: the dict comprehension keyed by slot keeps the
last entry for a duplicated slot (normalised stored outputs always carry
their slot, so the positional-index fallback of `output.get("slot", idx)`
never fires for them). -/
def lastWithSlot (outs : List Output) (s : ℤ) : Option Output :=
  (outs.filter (fun o => o.slot = s)).getLast?

/-- `incoming_by_slot` lookup: key each payload by its `slot` value, falling
back to its position in the list, keeping the last entry per key. -/
def lastPayloadWithSlot (ps : List OutputPayload) (s : ℤ) : Option OutputPayload :=
  (((ps.enum.map (fun ip => (ip.2.slot.getD (ip.1 : ℤ), ip.2))).filter
    (fun p => p.1 = s)).getLast?).map (fun p => p.2)

/-- Normalise one slot of a driver: the loop body of
`LedRegistry._normalize_driver_outputs` (registry.py lines 807-841), merging
the incoming payload over the previous stored output with defaults, then
applying the disabled coercion (level 0, pwm/target at `min_pwm`, fault
cleared). -/
def normalizeSlot (driverId : String) (slot : ℤ) (inc : OutputPayload)
    (prev : Option Output) : Output :=
  let outputId :=
    orStr inc.id (orStr (prev.map (fun o => o.id)) (driverId ++ "_slot" ++ toString slot))
  let disabled := inc.disabled.getD ((prev.map (fun o => o.disabled)).getD false)
  let minPwm := inc.minPwm.getD ((prev.map (fun o => o.minPwm)).getD 0)
  let maxPwm := inc.maxPwm.getD ((prev.map (fun o => o.maxPwm)).getD 255)
  let level0 := inc.level.getD ((prev.map (fun o => o.level)).getD 0)
  let pwm0 := inc.pwm.getD ((prev.map (fun o => o.pwm)).getD 0)
  let target0 := inc.targetPwm.getD ((prev.map (fun o => o.targetPwm)).getD pwm0)
  { id := outputId
    slot := slot
    name := inc.name.getD ((prev.map (fun o => o.name)).getD ("LED " ++ toString (slot + 1)))
    channels := normalizeChannels (inc.channels.getD ((prev.map (fun o => o.channels)).getD [slot]))
    disabled := disabled
    faulty := if disabled then false else inc.faulty.getD ((prev.map (fun o => o.faulty)).getD false)
    pwm := if disabled then minPwm else pwm0
    level := if disabled then 0 else level0
    minPwm := minPwm
    maxPwm := maxPwm
    targetPwm := if disabled then minPwm else target0 }

/-- `LedRegistry._normalize_driver_outputs`: always produce the fixed four
slots, merging incoming payloads over existing outputs by slot position. -/
def normalizeDriverOutputs (driverId : String) (incoming : List OutputPayload)
    (existing : List Output) : List Output :=
  (List.range 4).map (fun slotN =>
    let slot : ℤ := (slotN : ℤ)
    normalizeSlot driverId slot ((lastPayloadWithSlot incoming slot).getD emptyOutputPayload)
      (lastWithSlot existing slot))

/-- Payload dict for `async_upsert_driver`; `controllerId` uses a nested
`Option` because a present `"controller_id": None` overwrites while an absent
key preserves the stored value. -/
structure DriverPayload where
  id : Option String
  name : Option String
  controllerId : Option (Option String)
  driverIndex : Option ℤ
  outputs : List OutputPayload
deriving DecidableEq

/-- `LedRegistry.async_upsert_driver` (registry.py lines 749-780): find or
create the stored record, merge the scalar fields, then re-normalise all four
output slots against the previous outputs; the commit that follows is not
modelled (no property in scope observes it).  `freshId` stands in for the
`_new_id` UUID used when the payload carries no truthy id. -/
def upsertDriver (freshId : String) (r : Registry) (p : DriverPayload) :
    Registry × Driver :=
  let driverId := orStr p.id freshId
  let stored0 :=
    match r.drivers.find? (fun d => d.id = driverId) with
    | some d => d
    | none =>
      { id := driverId, name := orStr p.name driverId,
        controllerId := p.controllerId.getD none,
        driverIndex := p.driverIndex.getD 0, outputs := [] }
  let stored1 :=
    { stored0 with
      name := p.name.getD stored0.name,
      controllerId := p.controllerId.getD stored0.controllerId,
      driverIndex := p.driverIndex.getD stored0.driverIndex }
  let stored :=
    { stored1 with outputs := normalizeDriverOutputs driverId p.outputs stored0.outputs }
  ({ r with drivers := upsertBy (fun d => d.id) driverId stored r.drivers }, stored)

/-! ## Button upsert (registry.py lines 480-554) -/

/-- Payload dict for `async_upsert_button`. `mask` models
`int(button.get("mask", 0))`; `switch` is the already-converted hardware
address (`None`/non-integer payloads become `none` through the
`try/except`); `groupId` uses a nested `Option` since a present
`"group_id": None` overwrites while an absent key preserves. -/
structure ButtonPayload where
  id : Option String
  switchId : Option String
  switch : Option ℤ
  mask : ℤ
  name : Option String
  groupId : Option (Option String)
deriving DecidableEq

/-- Parent-switch resolution of `async_upsert_button` (registry.py lines
481-500): a truthy `switch_id` is looked up first; on a miss the hardware
`switch` number is tried, in which case the resolved parent's id becomes the
effective `switch_id`.  Returns the parent and the effective switch id. -/
def resolveButtonParent (r : Registry) (p : ButtonPayload) :
    Option (Switch × String) :=
  let viaId : Option Switch :=
    if strTruthy p.switchId then r.switches.find? (fun sw => sw.id = p.switchId.getD "")
    else none
  match viaId with
  | some sw => some (sw, p.switchId.getD "")
  | none =>
    match p.switch with
    | some v =>
      match r.switches.find? (fun sw => sw.switch = v) with
      | some sw => some (sw, sw.id)
      | none => none
    | none => none

/-- The mask validity check of `async_upsert_button` (registry.py line 503):
`mask <= 0 or (mask & (mask - 1)) != 0` rejects, so a valid mask is a single
set bit. -/
def singleBitMask (mask : ℤ) : Bool :=
  decide (0 < mask) && decide (Int.land mask (mask - 1) = 0)

/-- The sibling buttons considered by the duplicate-mask and limit checks:
buttons on the same switch other than the one being upserted. -/
def buttonSiblings (r : Registry) (switchId buttonId : String) : List Button :=
  r.buttons.filter (fun b => b.switchId = switchId && b.id ≠ buttonId)

/-- `LedRegistry.async_upsert_button` (registry.py lines 480-554), returning
the registry after the call, the result (stored button or raised error
message), and whether `async_commit` ran.  All validation precedes every
mutation in the source, so a raised error leaves the registry exactly as it
was and commits nothing. -/
def upsertButton (freshId : String) (r : Registry) (p : ButtonPayload) :
    Registry × Except String Button × Bool :=
  match resolveButtonParent r p with
  | none => (r, Except.error "Button must reference an existing switch", false)
  | some (parent, switchId) =>
    if !singleBitMask p.mask then
      (r, Except.error "Button mask must be a single-bit value greater than zero", false)
    else
      let buttonId := orStr p.id freshId
      let isNew := !(r.buttons.any (fun b => b.id = buttonId))
      let siblings := buttonSiblings r switchId buttonId
      if siblings.any (fun b => b.mask = p.mask) then
        (r, Except.error "Button mask already assigned for this switch", false)
      else if isNew && decide (parent.buttonCount ≤ (siblings.length : ℤ)) then
        (r, Except.error "Configured button limit reached for this switch", false)
      else
        let stored0 :=
          match r.buttons.find? (fun b => b.id = buttonId) with
          | some b => b
          | none =>
            { id := buttonId,
              name := orStr p.name (orStr (some parent.name) "Switch" ++ " Button"),
              switchId := switchId, switch := parent.switch, mask := p.mask,
              groupId := p.groupId.getD none }
        let stored :=
          { stored0 with
            name := p.name.getD stored0.name,
            switchId := switchId, switch := parent.switch, mask := p.mask,
            groupId := p.groupId.getD stored0.groupId }
        let r2 := { r with buttons := upsertBy (fun b => b.id) buttonId stored r.buttons }
        let key := toString parent.switch ++ ":" ++ toString p.mask
        let r3 := { r2 with learnedButtons := r2.learnedButtons.filter (fun lb => lb.id ≠ key) }
        (r3, Except.ok stored, true)

/-! ## Controller upsert (registry.py lines 359-402) -/

/-- Payload dict for `async_upsert_controller`. `port` uses a nested `Option`
(present `None` overwrites, absent key preserves); `hasCanInterface` /
`canInterface` model the `"has_can_interface"` key with its `"can_interface"`
synonym fallback, with `_normalize_bool` of the present value abstracted to
the resulting boolean; the payload `metadata` is not modelled. -/
structure ControllerPayload where
  id : Option String
  name : Option String
  port : Option (Option String)
  baudrate : Option ℤ
  pollingEnabled : Option Bool
  hasCanInterface : Option Bool
  canInterface : Option Bool
deriving DecidableEq

/-- The resolved CAN flag of a controller payload:
`controller.get("has_can_interface", controller.get("can_interface", dflt))`. -/
def payloadCanFlag (p : ControllerPayload) (dflt : Bool) : Bool :=
  match p.hasCanInterface with
  | some b => b
  | none =>
    match p.canInterface with
    | some b => b
    | none => dflt

/-- `LedRegistry.async_upsert_controller` (registry.py lines 359-402): find
or create the stored record, merge the payload, store it, then clear the CAN
flag on every other controller when the stored record carries it.  The final
commit is not modelled.  `freshId` stands in for the `_new_id` UUID. -/
def upsertController (freshId : String) (r : Registry) (p : ControllerPayload) :
    Registry × Controller :=
  let cid := orStr p.id freshId
  let stored0 :=
    match r.controllers.find? (fun c => c.id = cid) with
    | some c => c
    | none =>
      { id := cid, name := orStr p.name cid, port := p.port.getD none,
        baudrate := p.baudrate.getD 115200,
        pollingEnabled := p.pollingEnabled.getD false,
        hasCanInterface := payloadCanFlag p false,
        serialLog := [] }
  let stored :=
    { stored0 with
      name := p.name.getD stored0.name,
      port := p.port.getD stored0.port,
      baudrate := p.baudrate.getD stored0.baudrate,
      pollingEnabled := p.pollingEnabled.getD stored0.pollingEnabled,
      hasCanInterface := payloadCanFlag p stored0.hasCanInterface }
  let ctrls1 := upsertBy (fun c => c.id) cid stored r.controllers
  let ctrls2 :=
    if stored.hasCanInterface then
      ctrls1.map (fun c => if c.id = cid then c else { c with hasCanInterface := false })
    else ctrls1
  ({ r with controllers := ctrls2 }, stored)

/-- Number of controllers carrying the CAN-bridge flag. -/
def canCount (r : Registry) : ℕ :=
  (r.controllers.filter (fun c => c.hasCanInterface)).length

/-! ## Event matching (manager.py `_match_outputs`, lines 838-868) -/

/-- Driver-index filter: when the event carries a driver index, only drivers
with that index participate. -/
def driverIndexMatches (dIdx : Option ℤ) (d : Driver) : Bool :=
  match dIdx with
  | none => true
  | some v => d.driverIndex = v

/-- An output takes part in matching at all: right controller, right driver
index, and not disabled (`_match_outputs` skips disabled outputs). -/
def outputEligible (cid : String) (dIdx : Option ℤ) (d : Driver) (o : Output) : Bool :=
  (d.controllerId = some cid) && driverIndexMatches dIdx d && !o.disabled

/-- Channel-match condition: the event carries a channel that is in the
output's raw channel list (no slot fallback here). -/
def channelCond (channel : Option ℤ) (o : Output) : Bool :=
  match channel with
  | some c => o.channels.contains c
  | none => false

/-- Slot-match condition: the event carries a slot equal to the output's. -/
def slotCond (slot : Option ℤ) (o : Output) : Bool :=
  match slot with
  | some s => o.slot = s
  | none => false

/-- The two candidate lists built by `_match_outputs`: channel matches and
slot matches, in registry iteration order (one output may appear in both). -/
def matchPairs (drivers : List Driver) (cid : String) (dIdx channel slot : Option ℤ) :
    List (Driver × Output) × List (Driver × Output) :=
  drivers.foldl (fun acc d =>
    d.outputs.foldl (fun acc2 o =>
      if outputEligible cid dIdx d o then
        let acc3 := if channelCond channel o then (acc2.1 ++ [(d, o)], acc2.2) else acc2
        if slotCond slot o then (acc3.1, acc3.2 ++ [(d, o)]) else acc3
      else acc2) acc) ([], [])

/-- `_match_outputs` result: `channel_matches or slot_matches`. -/
def matchOutputs (drivers : List Driver) (cid : String) (dIdx channel slot : Option ℤ) :
    List (Driver × Output) :=
  let pairs := matchPairs drivers cid dIdx channel slot
  if pairs.1.isEmpty then pairs.2 else pairs.1

/-- Whether a given output is one of the matched ones, as a predicate:
eligible, and satisfying the channel condition when any channel match exists
fleet-wide (channel matches take priority), the slot condition otherwise. -/
def outputMatched (cid : String) (dIdx channel slot : Option ℤ) (useChannel : Bool)
    (d : Driver) (o : Output) : Bool :=
  outputEligible cid dIdx d o &&
    (if useChannel then channelCond channel o else slotCond slot o)

/-! ## Fault events (manager.py `_apply_fault_event`, lines 806-836) -/

/-- Identifier fields extracted from a fault event
(`_to_int(_get(event, ...))` with the documented key synonyms); the
extraction itself is not load-bearing and is abstracted to the resulting
optional integers. -/
structure FaultEventFields where
  dvr : Option ℤ
  c : Option ℤ
  i : Option ℤ
deriving DecidableEq

/-- Per-matched-output update of `_apply_fault_event`: a disabled output has
its fault forcibly cleared, otherwise the reported fault is applied on
change.  (The disabled branch is retained verbatim from the source even
though `_match_outputs` never yields disabled outputs.) -/
def faultOutputUpdate (isFault : Bool) (o : Output) : Output :=
  if o.disabled then
    if o.faulty then { o with faulty := false } else o
  else if o.faulty != isFault then { o with faulty := isFault } else o

/-- Whether `_apply_fault_event` records the output as changed. -/
def faultOutputChanged (isFault : Bool) (o : Output) : Bool :=
  if o.disabled then o.faulty else o.faulty != isFault

/-- `LedDriverManager._apply_fault_event`: match outputs, and when any match
exists update each matched output in place, returning the new registry and
the ids of the outputs whose fault flag actually changed. -/
def applyFaultEvent (r : Registry) (cid : String) (ev : FaultEventFields)
    (isFault : Bool) : Registry × List String :=
  let pairs := matchPairs r.drivers cid ev.dvr ev.c ev.i
  if pairs.1.isEmpty && pairs.2.isEmpty then (r, [])
  else
    let useChannel := !pairs.1.isEmpty
    let drivers2 := r.drivers.map (fun d =>
      { d with outputs := d.outputs.map (fun o =>
          if outputMatched cid ev.dvr ev.c ev.i useChannel d o then
            faultOutputUpdate isFault o
          else o) })
    let changed := (r.drivers.flatMap (fun d =>
      d.outputs.filter (fun o =>
        outputMatched cid ev.dvr ev.c ev.i useChannel d o &&
          faultOutputChanged isFault o))).map (fun o => o.id)
    ({ r with drivers := drivers2 }, changed)

/-! ## Channel-state events (manager.py `_apply_channel_state_event`,
lines 750-804) -/

/-- Fields extracted from a channel-state event, post `_get`/`_to_int`
synonym resolution. -/
structure ChannelEventFields where
  dvr : Option ℤ
  c : Option ℤ
  i : Option ℤ
  sa : Option String
  level : Option ℤ
  pwm : Option ℤ
  onFlag : Option Bool
  flt : Option Bool
deriving DecidableEq

/-- Resolution of the event's level value (manager.py lines 765-773): the
explicit `level`, else 1/0 from the boolean `on`, else 1/0 from a non-empty
state string. -/
def channelEventLevel (ev : ChannelEventFields) : Option ℤ :=
  let state := lowerStr (ev.sa.getD "")
  let lv1 : Option ℤ :=
    match ev.level with
    | some v => some v
    | none =>
      match ev.onFlag with
      | some b => some (if b then 1 else 0)
      | none => none
  match lv1 with
  | some v => some v
  | none =>
    if state = "" then none
    else some (if state = "on" || state = "true" || state = "1" then 1 else 0)

/-- Per-matched-output update of `_apply_channel_state_event` (lines
775-799): level on change; pwm from the event on change, otherwise (when a
level is known) pwm snapped to `max_pwm` for on and to `min_pwm` (or 0 when
`min_pwm` is 0) for off; fault flag on change.  Disabled outputs are
untouched. -/
def channelOutputUpdate (lv pw : Option ℤ) (flt : Option Bool) (o : Output) : Output :=
  if o.disabled then o
  else
    let o1 :=
      match lv with
      | some v => if o.level ≠ v then { o with level := v } else o
      | none => o
    let snap := fun (u : Output) =>
      match lv with
      | some v =>
        if v ≠ 0 then
          if u.pwm ≠ u.maxPwm then { u with pwm := u.maxPwm } else u
        else
          let target := if u.minPwm = 0 then 0 else u.minPwm
          if u.pwm ≠ target then { u with pwm := target } else u
      | none => u
    let o2 :=
      match pw with
      | some v => if o1.pwm ≠ v then { o1 with pwm := v } else snap o1
      | none => snap o1
    match flt with
    | some f => if o2.faulty != f then { o2 with faulty := f } else o2
    | none => o2

/-- Whether `_apply_channel_state_event` records the output as changed: every
field assignment in the loop body is guarded by inequality on a distinct
field, so the `output_changed` flag is equivalent to the record differing. -/
def channelOutputChanged (lv pw : Option ℤ) (flt : Option Bool) (o : Output) : Bool :=
  !o.disabled && channelOutputUpdate lv pw flt o ≠ o

/-- `LedDriverManager._apply_channel_state_event`: match outputs and, when
any match exists, apply the level/pwm/fault updates, returning the new
registry and the changed output ids. -/
def applyChannelStateEvent (r : Registry) (cid : String) (ev : ChannelEventFields) :
    Registry × List String :=
  let pairs := matchPairs r.drivers cid ev.dvr ev.c ev.i
  if pairs.1.isEmpty && pairs.2.isEmpty then (r, [])
  else
    let useChannel := !pairs.1.isEmpty
    let lv := channelEventLevel ev
    let drivers2 := r.drivers.map (fun d =>
      { d with outputs := d.outputs.map (fun o =>
          if outputMatched cid ev.dvr ev.c ev.i useChannel d o then
            channelOutputUpdate lv ev.pwm ev.flt o
          else o) })
    let changed := (r.drivers.flatMap (fun d =>
      d.outputs.filter (fun o =>
        outputMatched cid ev.dvr ev.c ev.i useChannel d o &&
          channelOutputChanged lv ev.pwm ev.flt o))).map (fun o => o.id)
    ({ r with drivers := drivers2 }, changed)

/-! ## Derived group state (manager.py `_update_groups_from_output_ids`,
lines 870-893) -/

/-- The derived on/off value computed for one group: false when the group has
no enabled resolvable member, else true iff every enabled member is lit
(level > 0) or faulted. -/
def groupDerivedOn (drivers : List Driver) (g : Group) : Bool :=
  let active := (resolveOutputIds drivers g.ledIds).filter (fun p => !p.2.disabled)
  if active.isEmpty then false
  else active.all (fun p => decide (0 < p.2.level) || p.2.faulty)

/-- Whether a group's member list intersects the changed output ids. -/
def groupTouched (outputIds : List String) (g : Group) : Bool :=
  g.ledIds.any (fun lid => outputIds.contains lid)

/-- `LedDriverManager._update_groups_from_output_ids`: recompute the derived
flag of every group touching a changed output, store it only when it flips,
and return the ids of the flipped groups. -/
def updateGroupsFromOutputIds (r : Registry) (outputIds : List String) :
    Registry × List String :=
  if outputIds.isEmpty then (r, [])
  else
    let groups2 := r.groups.map (fun g =>
      if groupTouched outputIds g && (g.isOn != groupDerivedOn r.drivers g) then
        { g with isOn := groupDerivedOn r.drivers g }
      else g)
    let changed := (r.groups.filter (fun g =>
      groupTouched outputIds g && (g.isOn != groupDerivedOn r.drivers g))).map
        (fun g => g.id)
    ({ r with groups := groups2 }, changed)

/-! ## Channel-state event processing (manager.py lines 229-240) -/

/-- `LedRegistry.async_append_serial_log`: append an entry (capped at 200) to
the addressed controller's serial log; the call unconditionally commits, which
the caller counts. -/
def appendSerialLog (r : Registry) (cid : String) (direction : String) (now : ℤ) :
    Registry :=
  { r with controllers := r.controllers.map (fun c =>
      if c.id = cid then
        let log := c.serialLog ++ [{ timestamp := now, direction := direction }]
        { c with serialLog := if 200 < log.length then log.drop (log.length - 200) else log }
      else c) }

/-- `LedDriverManager._process_led_channel_state`: log the inbound event
(first commit), apply it, and — only when some output changed — recompute
group states, commit again and broadcast the flipped groups.  Returns the
final registry, the number of `async_commit` calls, and the broadcast group
ids. -/
def processLedChannelState (r : Registry) (cid : String) (ev : ChannelEventFields)
    (now : ℤ) : Registry × ℕ × List String :=
  let r1 := appendSerialLog r cid "rx" now
  let res := applyChannelStateEvent r1 cid ev
  if res.2.isEmpty then (res.1, 1, [])
  else
    let res2 := updateGroupsFromOutputIds res.1 res.2
    (res2.1, 2, res2.2)

/-! ## Group actions (manager.py `async_apply_group_action`, lines 288-358) -/

/-- One `{drv: ..., cs: [...]}` element of an outbound led command. -/
structure DriverCmd where
  drv : ℤ
  cs : List ℤ
deriving DecidableEq

/-- An outbound `{cm: "led", a: ..., drvs: [...]}` command (the constant
`cm` field is left implicit). -/
structure LedCommand where
  a : String
  drvs : List DriverCmd
deriving DecidableEq

/-- Turn a controller → driver map into one message per controller (in map
insertion order, drivers sorted by index), failing on the first controller
without a live serial helper, as the source raises there. -/
def mapToMessages (connected : List String) (action : String)
    (m : List (String × List (ℤ × List ℤ))) :
    Except String (List (String × LedCommand)) :=
  m.foldl (fun acc p =>
    match acc with
    | Except.error e => Except.error e
    | Except.ok msgs =>
      if connected.contains p.1 then
        Except.ok (msgs ++ [(p.1,
          { a := action,
            drvs := (sortByKey p.2).map (fun q => { drv := q.1, cs := q.2 }) })])
      else Except.error ("Controller " ++ p.1 ++ " not connected")) (Except.ok [])

/-- `LedDriverManager.async_apply_group_action`: "off" sends the channel map
built with `include_faulty=True` (disabled excluded); every other action
sends the PWM map built with `include_disabled=True, include_faulty=True` at
the group's stored brightness.  `connected` is the set of controller ids with
a live serial helper; the tx serial-log appends are not modelled. -/
def applyGroupAction (r : Registry) (connected : List String)
    (groupId action : String) : Except String (List (String × LedCommand)) :=
  match getGroup r groupId with
  | none => Except.error ("Unknown group " ++ groupId)
  | some g =>
    if lowerStr action = "off" then
      let channelMap := buildGroupChannelMap r groupId false true
      if channelMap.isEmpty then Except.error ("No LEDs assigned to group " ++ groupId)
      else mapToMessages connected action channelMap
    else
      let pwmMap := buildGroupPwmMap r groupId true true (some g.brightness)
      if pwmMap.isEmpty then Except.error ("No LEDs assigned to group " ++ groupId)
      else mapToMessages connected action pwmMap

/-! ## Button presses (manager.py `_handle_button_press`, lines 1236-1260) -/

/-- The manager's per-button runtime state (`_ButtonState`); the asyncio ramp
task handle, the metadata dict and the unused `pending_toggle` field are
omitted.  Timestamps are rationals standing for the monotonic-clock floats,
with the float rounding of the subtraction in the double-press test
abstracted to exact arithmetic. -/
structure ButtonRuntimeState where
  switch : ℤ
  mask : ℤ
  groupId : Option String
  name : Option String
  buttonCount : ℤ
  direction : ℤ
  lastPress : ℚ
  lastRelease : ℚ
  pressed : Bool
  holdStarted : ℚ
deriving DecidableEq

/-- `LedDriverManager._handle_button_press`: mark pressed, start the hold
timer, and either reverse the ramp direction (double press: a previous
release exists and lies within the 0.5 s window) or request a toggle of the
bound group (single press with a truthy group id).  The returned boolean is
the emitted toggle intent (`await self._toggle_group(...)`). -/
def handleButtonPress (bs : ButtonRuntimeState) (now : ℚ) :
    ButtonRuntimeState × Bool :=
  let bs1 := { bs with pressed := true, holdStarted := now }
  let doublePress :=
    decide (bs1.lastRelease ≠ 0) && decide (now - bs1.lastRelease ≤ 1 / 2)
  let bs2 := { bs1 with lastPress := now }
  if doublePress then ({ bs2 with direction := bs2.direction * -1 }, false)
  else if strTruthy bs2.groupId then (bs2, true)
  else (bs2, false)

/-! ## Addressing predicate for the PWM map theorems -/

/-- The disabled/faulty filter of the group map builders. -/
def passesFlags (includeDisabled includeFaulty : Bool) (o : Output) : Bool :=
  !(!includeDisabled && o.disabled) && !(!includeFaulty && o.faulty)

/-- One resolved (driver, output) pair addresses channel `k` of driver index
`dIdx` on controller `cid` through output `o`: the pair carries `o`, `o`
passes the disabled/faulty filters, the driver has that controller and index,
and `k` is one of the output's effective channels within the 4-slot range. -/
def pairAddresses (includeDisabled includeFaulty : Bool) (cid : String)
    (dIdx : ℤ) (k : ℕ) (p : Driver × Output) (o : Output) : Prop :=
  p.2 = o ∧ passesFlags includeDisabled includeFaulty o = true ∧
    p.1.controllerId = some cid ∧ p.1.driverIndex = dIdx ∧
    (k : ℤ) ∈ effChannels o ∧ k < 4

/-- Some pair of the resolved member list addresses channel `k` through `o`. -/
def addressesSlot (l : List (Driver × Output)) (includeDisabled includeFaulty : Bool)
    (cid : String) (dIdx : ℤ) (k : ℕ) (o : Output) : Prop :=
  ∃ p, p ∈ l ∧ pairAddresses includeDisabled includeFaulty cid dIdx k p o

/-- Correctness statement for an accumulated PWM map with respect to an
addressing relation `A`: every stored array has the fixed four slots, a slot
not addressed by `A` holds the sentinel `-1`, and an addressed slot holds the
double-precision PWM value of one of the outputs addressing it. -/
def pwmSlotsOk (b : ℤ) (A : String → ℤ → ℕ → Output → Prop)
    (m : List (String × List (ℤ × List ℤ))) : Prop :=
  ∀ cid inner, (cid, inner) ∈ m → ∀ dIdx slots, (dIdx, slots) ∈ inner →
    slots.length = 4 ∧
    ∀ k : ℕ, k < 4 →
      (slots.getD k (-1) = -1 ∧ ¬ ∃ o, A cid dIdx k o) ∨
      (∃ o, A cid dIdx k o ∧ slots.getD k (-1) = pwmScalar o.minPwm o.maxPwm b)

/-- The output produced for a slot present in neither the incoming payload
nor the stored outputs. -/
def defaultOutput (driverId : String) (slot : ℤ) : Output :=
  { id := driverId ++ "_slot" ++ toString slot, slot := slot,
    name := "LED " ++ toString (slot + 1), channels := normalizeChannels [slot],
    disabled := false, faulty := false, pwm := 0, level := 0, minPwm := 0,
    maxPwm := 255, targetPwm := 0 }

/-- A stored output satisfying the invariant `_normalize_driver_outputs`
establishes: the disabled coercion already applied, channels sorted and
duplicate-free, and a non-empty id. -/
def normalizedInv (o : Output) : Prop :=
  (o.disabled = true → o.level = 0 ∧ o.pwm = o.minPwm ∧ o.targetPwm = o.minPwm ∧
    o.faulty = false) ∧
  normalizeChannels o.channels = o.channels ∧ o.id ≠ ""

/-! ## Concrete instances used by the witnesses and counterexamples -/

/-- A plain enabled output with the default 0-255 clamp range. -/
def mkOutput (oid : String) (slot : ℤ) (chans : List ℤ) : Output :=
  { id := oid, slot := slot, name := "LED", channels := chans, disabled := false,
    faulty := false, pwm := 0, level := 0, minPwm := 0, maxPwm := 255, targetPwm := 0 }

/-- C1 witness group over output `o1`. -/
def grpW1 : Group :=
  { id := "g1", name := "G", ledIds := ["o1"], isOn := false, brightness := 50 }

/-- C2 counterexample group at full brightness. -/
def grpC2 : Group :=
  { id := "g1", name := "G", ledIds := ["o1", "o2"], isOn := false, brightness := 100 }

/-- C3 counterexample group at brightness 29. -/
def grpC3 : Group :=
  { id := "g1", name := "G", ledIds := ["o1"], isOn := false, brightness := 29 }

/-- C10 counterexample group. -/
def grpC10 : Group :=
  { id := "g1", name := "G", ledIds := ["o1"], isOn := false, brightness := 0 }

/-- C1 witness registry: one driver with a lit output, one group over it. -/
def regW1 : Registry :=
  { emptyRegistry with
    drivers := [{ id := "d1", name := "D", controllerId := some "c1", driverIndex := 0,
                  outputs := [{ mkOutput "o1" 0 [0] with level := 1 }] }],
    groups := [grpW1] }

/-- C2 counterexample registry: a group over a disabled output and a faulted
output. -/
def regC2 : Registry :=
  { emptyRegistry with
    drivers := [{ id := "d1", name := "D", controllerId := some "c1", driverIndex := 0,
                  outputs := [{ mkOutput "o1" 0 [0] with disabled := true },
                              { mkOutput "o2" 1 [1] with faulty := true }] }],
    groups := [grpC2] }

/-- C3 counterexample registry: an output with clamp range [0, 100] whose
double-precision PWM at brightness 29 differs from the exact formula. -/
def regC3 : Registry :=
  { emptyRegistry with
    drivers := [{ id := "d1", name := "D", controllerId := some "c1", driverIndex := 0,
                  outputs := [{ mkOutput "o1" 0 [0] with maxPwm := 100 }] }],
    groups := [grpC3] }

/-- C4 counterexample output: disabled and currently marked faulty (a state a
status snapshot can produce, since `_apply_status_snapshot` does not skip
disabled outputs). -/
def outC4 : Output := { mkOutput "o1" 0 [0] with disabled := true, faulty := true }

/-- C4 counterexample registry around `outC4`. -/
def regC4 : Registry :=
  { emptyRegistry with
    drivers := [{ id := "d1", name := "D", controllerId := some "c1", driverIndex := 0,
                  outputs := [outC4] }] }

/-- C4 counterexample fault event addressing the disabled output's
coordinates. -/
def evC4 : FaultEventFields := { dvr := some 0, c := some 0, i := some 0 }

/-- C4: an enabled sibling output on channel 0, so the fault event does match
something. -/
def outC4b : Output := mkOutput "o2" 1 [0]

/-- C4: the driver holding the disabled faulty output and its enabled
sibling. -/
def drvC4b : Driver :=
  { id := "d1", name := "D", controllerId := some "c1", driverIndex := 0,
    outputs := [outC4, outC4b] }

/-- C4 counterexample registry around `drvC4b`. -/
def regC4b : Registry := { emptyRegistry with drivers := [drvC4b] }

/-- C5 counterexample existing output: disabled with a pwm that drifted away
from `min_pwm` (reachable through a status snapshot, which updates disabled
outputs too). -/
def outC5 : Output := { mkOutput "o1" 0 [0] with disabled := true, pwm := 7 }

/-- C5: the driver storing `outC5` at slot 0. -/
def drvC5 : Driver :=
  { id := "d1", name := "D", controllerId := some "c1", driverIndex := 0,
    outputs := [outC5] }

/-- C5 counterexample registry: driver `d1` stores `outC5` at slot 0. -/
def regC5 : Registry := { emptyRegistry with drivers := [drvC5] }

/-- C5 re-upsert payload for driver `d1` with no incoming outputs. -/
def payC5 : DriverPayload :=
  { id := some "d1", name := none, controllerId := none, driverIndex := none,
    outputs := [] }

/-- C6 witness registry: one switch with a one-button limit and one mapped
button holding mask 1. -/
def regW6 : Registry :=
  { emptyRegistry with
    switches := [{ id := "sw1", name := "SW", switch := 7, type := "momentary",
                   buttonCount := 1, hasBuzzer := false, flashLeds := true }],
    buttons := [{ id := "b1", name := "B1", switchId := "sw1", switch := 7,
                  mask := 1, groupId := none }] }

/-- C7 counterexample registry: a controller with no drivers at all, so no
channel-state event can match an output. -/
def regC7 : Registry :=
  { emptyRegistry with
    controllers := [{ id := "c1", name := "C", port := some "/dev/ttyUSB0",
                      baudrate := 115200, pollingEnabled := false,
                      hasCanInterface := false, serialLog := [] }] }

/-- C7 counterexample channel-state event. -/
def evC7 : ChannelEventFields :=
  { dvr := some 0, c := some 0, i := some 0, sa := some "on", level := none,
    pwm := none, onFlag := none, flt := none }

/-- C8 witness button state: direction 1, last release at t = 10. -/
def bsW8 : ButtonRuntimeState :=
  { switch := 7, mask := 1, groupId := some "g1", name := some "B",
    buttonCount := 5, direction := 1, lastPress := 10 - 1, lastRelease := 10,
    pressed := false, holdStarted := 0 }

/-- C10 counterexample registry: an output whose clamp bounds are the
non-representable integer 2^53 + 1, which the int→float conversion rounds
down to 2^53. -/
def regC10 : Registry :=
  { emptyRegistry with
    drivers := [{ id := "d1", name := "D", controllerId := some "c1", driverIndex := 0,
                  outputs := [{ mkOutput "o1" 0 [0] with
                                minPwm := 2 ^ 53 + 1, maxPwm := 2 ^ 53 + 1 }] }],
    groups := [grpC10] }

/-- Decidable equality for `Except`, so that results of fallible operations
can be checked on concrete inputs. -/
instance {eps alpha : Type} [DecidableEq eps] [DecidableEq alpha] :
    DecidableEq (Except eps alpha) := fun x y =>
  match x, y with
  | Except.error a, Except.error b =>
    if h : a = b then Decidable.isTrue (by rw [h])
    else Decidable.isFalse (by intro hc; cases hc; exact h rfl)
  | Except.ok a, Except.ok b =>
    if h : a = b then Decidable.isTrue (by rw [h])
    else Decidable.isFalse (by intro hc; cases hc; exact h rfl)
  | Except.error _, Except.ok _ => Decidable.isFalse (by intro hc; cases hc)
  | Except.ok _, Except.error _ => Decidable.isFalse (by intro hc; cases hc)

/-- C6 witness payload with a two-bit mask. -/
def payC6bad : ButtonPayload :=
  { id := none, switchId := some "sw1", switch := none, mask := 3, name := none,
    groupId := none }

/-- C6 witness payload with a mask already taken by the sibling `b1`. -/
def payC6dup : ButtonPayload :=
  { id := none, switchId := some "sw1", switch := none, mask := 1, name := none,
    groupId := none }

/-- C6 witness payload for a new button on a switch already at its limit. -/
def payC6limit : ButtonPayload :=
  { id := none, switchId := some "sw1", switch := none, mask := 2, name := none,
    groupId := none }

/-- C9 witness payload: controller `c2` claiming the CAN-bridge flag. -/
def payC9 : ControllerPayload :=
  { id := some "c2", name := some "C2", port := none, baudrate := none,
    pollingEnabled := none, hasCanInterface := some true, canInterface := none }

/-- C9 witness controller: `c1` currently holds the CAN-bridge flag. -/
def ctrlW9 : Controller :=
  { id := "c1", name := "C1", port := none, baudrate := 115200,
    pollingEnabled := false, hasCanInterface := true, serialLog := [] }

/-- C9 witness registry around `ctrlW9`. -/
def regW9 : Registry := { emptyRegistry with controllers := [ctrlW9] }

/-- The controller value of `regC7` after its serial log records one inbound
event at timestamp 1000. -/
def ctrlC7Logged : Controller :=
  { id := "c1", name := "C", port := some "/dev/ttyUSB0", baudrate := 115200,
    pollingEnabled := false, hasCanInterface := false,
    serialLog := [{ timestamp := 1000, direction := "rx" }] }

/-! ## Numeric layer lemmas -/

theorem bitLenAux_zero (fuel : ℕ) : bitLenAux fuel 0 = 0 := by
  cases fuel <;> simp [bitLenAux]

theorem bitLenAux_pos (fuel n : ℕ) (h0 : n ≠ 0) (hn : n ≤ fuel) :
    1 ≤ bitLenAux fuel n := by
  cases fuel with
  | zero => omega
  | succ f => simp only [bitLenAux, if_neg h0]; omega

theorem bitLenAux_spec : ∀ fuel n : ℕ, n ≤ fuel → n ≠ 0 →
    2 ^ (bitLenAux fuel n - 1) ≤ n ∧ n < 2 ^ bitLenAux fuel n := by
  intro fuel
  induction fuel with
  | zero => intro n hn h0; omega
  | succ f ih =>
    intro n hn h0
    simp only [bitLenAux, if_neg h0]
    by_cases h2 : n / 2 = 0
    · have hn1 : n = 1 := by omega
      subst hn1
      simp [h2, bitLenAux_zero]
    · have hle : n / 2 ≤ f := by omega
      obtain ⟨h1, h2u⟩ := ih (n / 2) hle h2
      have hLpos : 1 ≤ bitLenAux f (n / 2) := bitLenAux_pos f (n / 2) h2 hle
      set L := bitLenAux f (n / 2) with hL
      have hpow : 2 ^ L = 2 ^ (L - 1) * 2 := by
        conv_lhs => rw [show L = (L - 1) + 1 by omega]
        rw [pow_succ]
      have hpow2 : 2 ^ (L + 1) = 2 ^ L * 2 := by rw [pow_succ]
      constructor
      · simpa using by omega
      · omega

theorem bitLen_spec (n : ℕ) (h0 : n ≠ 0) :
    2 ^ (bitLen n - 1) ≤ n ∧ n < 2 ^ bitLen n :=
  bitLenAux_spec n n le_rfl h0

theorem bitLen_pos (n : ℕ) (h0 : n ≠ 0) : 1 ≤ bitLen n :=
  bitLenAux_pos n n h0 le_rfl

theorem pow2_eq (e : ℤ) : pow2 e = (2 : ℚ) ^ e := by
  unfold pow2
  split_ifs with h
  · push_cast
    rw [← zpow_natCast (2 : ℚ) e.toNat, Int.toNat_of_nonneg h]
  · push_neg at h
    have h2 : (0 : ℤ) ≤ -e := by omega
    push_cast
    rw [← zpow_natCast (2 : ℚ) (-e).toNat, Int.toNat_of_nonneg h2, one_div, ← zpow_neg,
      neg_neg]

theorem abs_rat_eq (q : ℚ) : |q| = (q.num.natAbs : ℚ) / (q.den : ℚ) := by
  have hden : (0 : ℚ) < (q.den : ℚ) := by exact_mod_cast q.den_pos
  conv_lhs => rw [← Rat.num_div_den q]
  rw [abs_div, abs_of_pos hden]
  congr 1
  rw [Int.cast_natAbs]
  exact Int.cast_abs.symm

theorem qpow_natCast (a : ℕ) : ((2 ^ a : ℕ) : ℚ) = (2 : ℚ) ^ (a : ℤ) := by
  push_cast
  rw [← zpow_natCast (2 : ℚ) a]

theorem qexp_spec (q : ℚ) (hq : q ≠ 0) :
    (2 : ℚ) ^ qexp q ≤ |q| ∧ |q| < (2 : ℚ) ^ (qexp q + 1) := by
  have hnum : q.num.natAbs ≠ 0 := by
    simpa [Int.natAbs_ne_zero] using Rat.num_ne_zero.mpr hq
  have hden : q.den ≠ 0 := by have := q.den_pos; omega
  obtain ⟨hn1, hn2⟩ := bitLen_spec q.num.natAbs hnum
  obtain ⟨hd1, hd2⟩ := bitLen_spec q.den hden
  have hbn : 1 ≤ bitLen q.num.natAbs := bitLen_pos _ hnum
  have hbd : 1 ≤ bitLen q.den := bitLen_pos _ hden
  set bn := bitLen q.num.natAbs with hbn_def
  set bd := bitLen q.den with hbd_def
  have hD : (0 : ℚ) < (q.den : ℚ) := by exact_mod_cast q.den_pos
  have habs : |q| = (q.num.natAbs : ℚ) / (q.den : ℚ) := abs_rat_eq q
  have c1 : (2 : ℚ) ^ ((bn : ℤ) - 1) ≤ (q.num.natAbs : ℚ) := by
    have h := Nat.cast_le (α := ℚ) |>.mpr hn1
    rwa [qpow_natCast, show (((bn - 1 : ℕ)) : ℤ) = (bn : ℤ) - 1 by omega] at h
  have c2 : (q.num.natAbs : ℚ) < (2 : ℚ) ^ (bn : ℤ) := by
    have h := Nat.cast_lt (α := ℚ) |>.mpr hn2
    rwa [qpow_natCast] at h
  have c3 : (2 : ℚ) ^ ((bd : ℤ) - 1) ≤ (q.den : ℚ) := by
    have h := Nat.cast_le (α := ℚ) |>.mpr hd1
    rwa [qpow_natCast, show (((bd - 1 : ℕ)) : ℤ) = (bd : ℤ) - 1 by omega] at h
  have c4 : (q.den : ℚ) < (2 : ℚ) ^ (bd : ℤ) := by
    have h := Nat.cast_lt (α := ℚ) |>.mpr hd2
    rwa [qpow_natCast] at h
  have hlow : (2 : ℚ) ^ ((bn : ℤ) - (bd : ℤ) - 1) < |q| := by
    rw [habs, lt_div_iff₀ hD]
    calc (2 : ℚ) ^ ((bn : ℤ) - (bd : ℤ) - 1) * (q.den : ℚ)
        < (2 : ℚ) ^ ((bn : ℤ) - (bd : ℤ) - 1) * (2 : ℚ) ^ (bd : ℤ) := by
          exact mul_lt_mul_of_pos_left c4 (by positivity)
      _ = (2 : ℚ) ^ ((bn : ℤ) - 1) := by
          rw [← zpow_add₀ (two_ne_zero)]; congr 1; ring
      _ ≤ (q.num.natAbs : ℚ) := c1
  have hhigh : |q| < (2 : ℚ) ^ ((bn : ℤ) - (bd : ℤ) + 1) := by
    rw [habs, div_lt_iff₀ hD]
    calc (q.num.natAbs : ℚ) < (2 : ℚ) ^ (bn : ℤ) := c2
      _ = (2 : ℚ) ^ ((bn : ℤ) - (bd : ℤ) + 1) * (2 : ℚ) ^ ((bd : ℤ) - 1) := by
          rw [← zpow_add₀ (two_ne_zero)]; congr 1; ring
      _ ≤ (2 : ℚ) ^ ((bn : ℤ) - (bd : ℤ) + 1) * (q.den : ℚ) :=
          mul_le_mul_of_nonneg_left c3 (by positivity)
  have hqexp : qexp q =
      (if pow2 ((bn : ℤ) - (bd : ℤ)) ≤ |q| then (bn : ℤ) - (bd : ℤ)
       else (bn : ℤ) - (bd : ℤ) - 1) := rfl
  rw [hqexp]
  split_ifs with h
  · exact ⟨by rwa [pow2_eq] at h, hhigh⟩
  · rw [pow2_eq] at h
    push_neg at h
    exact ⟨le_of_lt hlow, by simpa using h⟩

theorem rne_ge_floor (m : ℚ) : ⌊m⌋ ≤ rne m := by
  simp only [rne]; split_ifs <;> omega

theorem rne_le_floor_add_one (m : ℚ) : rne m ≤ ⌊m⌋ + 1 := by
  simp only [rne]; split_ifs <;> omega

theorem rne_intCast (k : ℤ) : rne (k : ℚ) = k := by
  unfold rne
  norm_num

theorem rne_mono {m1 m2 : ℚ} (h : m1 ≤ m2) : rne m1 ≤ rne m2 := by
  have hf : ⌊m1⌋ ≤ ⌊m2⌋ := Int.floor_le_floor h
  rcases lt_or_eq_of_le hf with hlt | heq
  · have h1 := rne_le_floor_add_one m1
    have h2 := rne_ge_floor m2
    omega
  · simp only [rne]
    rw [← heq]
    split_ifs <;> first | omega | linarith

theorem qexp_neg (q : ℚ) : qexp (-q) = qexp q := by
  unfold qexp
  rw [Rat.neg_num, Int.natAbs_neg, Rat.neg_den, abs_neg]

theorem roundDouble_neg (q : ℚ) : roundDouble (-q) = -roundDouble q := by
  rcases lt_trichotomy q 0 with h | h | h
  · unfold roundDouble
    rw [if_neg (by rw [neg_eq_zero]; exact ne_of_lt h),
      if_neg (ne_of_lt h), if_pos (by linarith), if_neg (by linarith), qexp_neg, abs_neg,
      neg_neg]
  · rw [h]; simp [roundDouble]
  · unfold roundDouble
    rw [if_neg (by rw [neg_eq_zero]; exact ne_of_gt h), if_neg (ne_of_gt h),
      if_neg (by linarith), if_pos h, qexp_neg, abs_neg]

theorem roundDouble_zero : roundDouble 0 = 0 := by
  simp [roundDouble]

theorem pow2_pos (e : ℤ) : 0 < pow2 e := by
  rw [pow2_eq]; positivity

theorem zpow_int_cast_q (n : ℕ) : ((2 ^ n : ℤ) : ℚ) = (2 : ℚ) ^ (n : ℤ) := by
  push_cast
  rw [← zpow_natCast (2 : ℚ) n]

theorem roundDouble_pos_eq {q : ℚ} (h : 0 < q) :
    roundDouble q = (rne (q * pow2 (52 - qexp q)) : ℚ) * pow2 (qexp q - 52) := by
  simp only [roundDouble]
  rw [if_neg (ne_of_gt h), if_pos h, abs_of_pos h]

theorem roundDouble_bounds_pos {q : ℚ} (h : 0 < q) :
    (2 : ℚ) ^ qexp q ≤ roundDouble q ∧ roundDouble q ≤ (2 : ℚ) ^ (qexp q + 1) := by
  obtain ⟨hl, hh⟩ := qexp_spec q (ne_of_gt h)
  rw [abs_of_pos h] at hl hh
  set e := qexp q with he
  have hm_lo : (2 : ℚ) ^ (52 : ℤ) ≤ q * (2 : ℚ) ^ (52 - e) := by
    calc (2 : ℚ) ^ (52 : ℤ) = (2 : ℚ) ^ e * (2 : ℚ) ^ (52 - e) := by
          rw [← zpow_add₀ two_ne_zero]; congr 1; ring
      _ ≤ q * (2 : ℚ) ^ (52 - e) := mul_le_mul_of_nonneg_right hl (by positivity)
  have hm_hi : q * (2 : ℚ) ^ (52 - e) < (2 : ℚ) ^ (53 : ℤ) := by
    calc q * (2 : ℚ) ^ (52 - e) < (2 : ℚ) ^ (e + 1) * (2 : ℚ) ^ (52 - e) :=
          mul_lt_mul_of_pos_right hh (by positivity)
      _ = (2 : ℚ) ^ (53 : ℤ) := by rw [← zpow_add₀ two_ne_zero]; congr 1; ring
  have h52 : ((2 ^ 52 : ℤ) : ℚ) = (2 : ℚ) ^ (52 : ℤ) := by norm_num
  have h53 : ((2 ^ 53 : ℤ) : ℚ) = (2 : ℚ) ^ (53 : ℤ) := by norm_num
  have hrne_lo : (2 ^ 52 : ℤ) ≤ rne (q * (2 : ℚ) ^ (52 - e)) := by
    refine le_trans ?_ (rne_ge_floor _)
    exact Int.le_floor.mpr (by rw [h52]; exact hm_lo)
  have hrne_hi : rne (q * (2 : ℚ) ^ (52 - e)) ≤ (2 ^ 53 : ℤ) := by
    have h1 := rne_le_floor_add_one (q * (2 : ℚ) ^ (52 - e))
    have h2 : ⌊q * (2 : ℚ) ^ (52 - e)⌋ < (2 ^ 53 : ℤ) :=
      Int.floor_lt.mpr (by rw [h53]; exact hm_hi)
    omega
  rw [roundDouble_pos_eq h, ← he, pow2_eq (52 - e), pow2_eq (e - 52)]
  constructor
  · calc (2 : ℚ) ^ e = (2 : ℚ) ^ (52 : ℤ) * (2 : ℚ) ^ (e - 52) := by
          rw [← zpow_add₀ two_ne_zero]; congr 1; ring
      _ ≤ (rne (q * (2 : ℚ) ^ (52 - e)) : ℚ) * (2 : ℚ) ^ (e - 52) := by
          refine mul_le_mul_of_nonneg_right ?_ (by positivity)
          rw [← h52]; exact_mod_cast hrne_lo
  · calc (rne (q * (2 : ℚ) ^ (52 - e)) : ℚ) * (2 : ℚ) ^ (e - 52)
        ≤ (2 : ℚ) ^ (53 : ℤ) * (2 : ℚ) ^ (e - 52) := by
          refine mul_le_mul_of_nonneg_right ?_ (by positivity)
          rw [← h53]; exact_mod_cast hrne_hi
      _ = (2 : ℚ) ^ (e + 1) := by rw [← zpow_add₀ two_ne_zero]; congr 1; ring

theorem roundDouble_pos {q : ℚ} (h : 0 < q) : 0 < roundDouble q := by
  refine lt_of_lt_of_le ?_ (roundDouble_bounds_pos h).1
  positivity

theorem roundDouble_nonneg {q : ℚ} (h : 0 ≤ q) : 0 ≤ roundDouble q := by
  rcases eq_or_lt_of_le h with h0 | h0
  · rw [← h0, roundDouble_zero]
  · exact le_of_lt (roundDouble_pos h0)

theorem qexp_mono_pos {x y : ℚ} (hx : 0 < x) (hxy : x ≤ y) : qexp x ≤ qexp y := by
  have hy : 0 < y := lt_of_lt_of_le hx hxy
  obtain ⟨hx1, hx2⟩ := qexp_spec x (ne_of_gt hx)
  obtain ⟨hy1, hy2⟩ := qexp_spec y (ne_of_gt hy)
  rw [abs_of_pos hx] at hx1 hx2
  rw [abs_of_pos hy] at hy1 hy2
  by_contra hlt
  push_neg at hlt
  have h2 : (2 : ℚ) ^ (qexp y + 1) ≤ (2 : ℚ) ^ qexp x :=
    (zpow_le_zpow_iff_right₀ (by norm_num : (1 : ℚ) < 2)).mpr (by omega)
  linarith

theorem roundDouble_mono_pos {x y : ℚ} (hx : 0 < x) (hxy : x ≤ y) :
    roundDouble x ≤ roundDouble y := by
  have hy : 0 < y := lt_of_lt_of_le hx hxy
  have he := qexp_mono_pos hx hxy
  rcases eq_or_lt_of_le he with heq | hlt
  · rw [roundDouble_pos_eq hx, roundDouble_pos_eq hy, ← heq]
    refine mul_le_mul_of_nonneg_right ?_ (le_of_lt (pow2_pos _))
    have : rne (x * pow2 (52 - qexp x)) ≤ rne (y * pow2 (52 - qexp x)) :=
      rne_mono (mul_le_mul_of_nonneg_right hxy (le_of_lt (pow2_pos _)))
    exact_mod_cast this
  · calc roundDouble x ≤ (2 : ℚ) ^ (qexp x + 1) := (roundDouble_bounds_pos hx).2
      _ ≤ (2 : ℚ) ^ qexp y :=
          (zpow_le_zpow_iff_right₀ (by norm_num : (1 : ℚ) < 2)).mpr (by omega)
      _ ≤ roundDouble y := (roundDouble_bounds_pos hy).1

theorem roundDouble_mono {x y : ℚ} (h : x ≤ y) : roundDouble x ≤ roundDouble y := by
  rcases lt_trichotomy x 0 with hx | hx | hx
  · rcases lt_trichotomy y 0 with hy | hy | hy
    · have hm := roundDouble_mono_pos (by linarith : (0 : ℚ) < -y)
        (by linarith : -y ≤ -x)
      rw [roundDouble_neg, roundDouble_neg] at hm
      linarith
    · rw [hy, roundDouble_zero]
      have : roundDouble (-x) ≥ 0 := roundDouble_nonneg (by linarith)
      rw [roundDouble_neg] at this
      linarith
    · refine le_trans ?_ (le_of_lt (roundDouble_pos hy))
      have : roundDouble (-x) ≥ 0 := roundDouble_nonneg (by linarith)
      rw [roundDouble_neg] at this
      linarith
  · rw [hx, roundDouble_zero]
    exact roundDouble_nonneg (by linarith)
  · exact roundDouble_mono_pos hx h

theorem roundDouble_intCast_pos {n : ℤ} (h0 : 0 < n) (h : n ≤ 2 ^ 52) :
    roundDouble (n : ℚ) = n := by
  have hq : (0 : ℚ) < (n : ℚ) := by exact_mod_cast h0
  obtain ⟨h1, h2⟩ := qexp_spec (n : ℚ) (ne_of_gt hq)
  rw [abs_of_pos hq] at h1 h2
  set e := qexp (n : ℚ) with he
  have he52 : e ≤ 52 := by
    by_contra hgt
    push_neg at hgt
    have : (2 : ℚ) ^ (53 : ℤ) ≤ (2 : ℚ) ^ e :=
      (zpow_le_zpow_iff_right₀ (by norm_num : (1 : ℚ) < 2)).mpr (by omega)
    have hn : (n : ℚ) ≤ (2 : ℚ) ^ (52 : ℤ) := by
      rw [show (2 : ℚ) ^ (52 : ℤ) = ((2 ^ 52 : ℤ) : ℚ) by norm_num]
      exact_mod_cast h
    have h5253 : (2 : ℚ) ^ (52 : ℤ) < (2 : ℚ) ^ (53 : ℤ) := by
      rw [zpow_lt_zpow_iff_right₀ (by norm_num : (1 : ℚ) < 2)]; omega
    linarith
  have he0 : 0 ≤ e := by
    by_contra hneg
    push_neg at hneg
    have h1n : (1 : ℚ) ≤ (n : ℚ) := by exact_mod_cast h0
    have : (2 : ℚ) ^ (e + 1) ≤ (2 : ℚ) ^ (0 : ℤ) :=
      (zpow_le_zpow_iff_right₀ (by norm_num : (1 : ℚ) < 2)).mpr (by omega)
    simp at this
    linarith
  set t : ℕ := (52 - e).toNat with ht
  have ht' : ((t : ℤ)) = 52 - e := Int.toNat_of_nonneg (by omega)
  have hm : (n : ℚ) * pow2 (52 - e) = ((n * 2 ^ t : ℤ) : ℚ) := by
    rw [pow2_eq, ← ht']
    push_cast
    rw [← zpow_natCast (2 : ℚ) t]
  rw [roundDouble_pos_eq hq, ← he, hm, rne_intCast]
  rw [pow2_eq]
  push_cast
  rw [← zpow_natCast (2 : ℚ) t, ht']
  rw [mul_assoc, ← zpow_add₀ (two_ne_zero : (2 : ℚ) ≠ 0)]
  norm_num

theorem roundDouble_intCast {n : ℤ} (h : |n| ≤ 2 ^ 52) : roundDouble (n : ℚ) = n := by
  have hb := abs_le.mp h
  rcases lt_trichotomy n 0 with hn | hn | hn
  · have := @roundDouble_intCast_pos (-n) (by omega) (by omega)
    have h2 : roundDouble ((-n : ℤ) : ℚ) = ((-n : ℤ) : ℚ) := by exact_mod_cast this
    push_cast at h2
    rw [roundDouble_neg] at h2
    have := neg_injective h2
    exact_mod_cast this
  · rw [hn]; push_cast; exact roundDouble_zero
  · exact roundDouble_intCast_pos hn (by omega)

theorem roundDouble_in_Icc {lo hi : ℤ} {x : ℚ} (hlo : |lo| ≤ 2 ^ 52)
    (hhi : |hi| ≤ 2 ^ 52) (h1 : (lo : ℚ) ≤ x) (h2 : x ≤ (hi : ℚ)) :
    (lo : ℚ) ≤ roundDouble x ∧ roundDouble x ≤ (hi : ℚ) := by
  constructor
  · rw [← roundDouble_intCast hlo]; exact roundDouble_mono h1
  · rw [← roundDouble_intCast hhi]; exact roundDouble_mono h2

theorem truncQ_in_Icc {lo hi : ℤ} {x : ℚ} (h1 : (lo : ℚ) ≤ x) (h2 : x ≤ (hi : ℚ)) :
    lo ≤ truncQ x ∧ truncQ x ≤ hi := by
  unfold truncQ
  split_ifs with h
  · refine ⟨?_, Int.ceil_le.mpr h2⟩
    have := Int.ceil_mono h1
    rwa [Int.ceil_intCast] at this
  · refine ⟨Int.le_floor.mpr h1, ?_⟩
    have := Int.floor_mono h2
    rwa [Int.floor_intCast] at this

theorem truncQ_intCast (k : ℤ) : truncQ (k : ℚ) = k := by
  unfold truncQ
  split_ifs <;> simp

theorem roundDouble_one : roundDouble 1 = 1 := by
  have h := @roundDouble_intCast 1 (by norm_num)
  simpa using h

theorem pwmScalar_bounds {mn mx b : ℤ} (hb0 : 0 ≤ b) (hb1 : b ≤ 100)
    (hmn : |mn| ≤ 2 ^ 51) (hmx : |mx| ≤ 2 ^ 51) :
    mn ≤ pwmScalar mn mx b ∧ pwmScalar mn mx b ≤ max mn mx := by
  have hbmn := abs_le.mp hmn
  have hbmx := abs_le.mp hmx
  set mxp := if mx < mn then mn else mx with hmxp
  have hmxp_ge : mn ≤ mxp := by rw [hmxp]; split_ifs <;> omega
  have hmxp_eq_max : mxp = max mn mx := by
    rw [hmxp]; rcases le_total mn mx with h | h <;> split_ifs <;> omega
  have hbmxp : -(2 ^ 51) ≤ mxp ∧ mxp ≤ 2 ^ 51 := by rw [hmxp]; split_ifs <;> omega
  set delta := mxp - mn with hdelta
  have hdelta0 : 0 ≤ delta := by omega
  have hdelta52 : delta ≤ 2 ^ 52 := by omega
  have hps : pwmScalar mn mx b =
      truncQ (roundDouble (roundDouble ((mn : ℤ) : ℚ) +
        roundDouble (roundDouble ((delta : ℤ) : ℚ) * roundDouble ((b : ℚ) / 100)))) := rfl
  set d1 := roundDouble ((b : ℚ) / 100) with hd1def
  have hd1 : (0 : ℚ) ≤ d1 ∧ d1 ≤ 1 := by
    have h0 : (((0 : ℤ)) : ℚ) ≤ (b : ℚ) / 100 := by
      have : (0 : ℚ) ≤ (b : ℚ) := by exact_mod_cast hb0
      positivity
    have h1 : (b : ℚ) / 100 ≤ ((1 : ℤ) : ℚ) := by
      rw [Int.cast_one, div_le_one (by norm_num)]
      exact_mod_cast hb1
    have h := @roundDouble_in_Icc 0 1 _ (by norm_num) (by norm_num) h0 h1
    simpa using h
  have hfdelta : roundDouble ((delta : ℚ)) = (delta : ℚ) :=
    roundDouble_intCast (by rw [abs_le]; omega)
  have hfmin : roundDouble ((mn : ℚ)) = (mn : ℚ) :=
    roundDouble_intCast (by rw [abs_le]; constructor <;> omega)
  set d2 := roundDouble ((delta : ℚ) * d1) with hd2def
  have hd2 : (0 : ℚ) ≤ d2 ∧ d2 ≤ (delta : ℚ) := by
    have hdq : (0 : ℚ) ≤ (delta : ℚ) := by exact_mod_cast hdelta0
    have h0 : (((0 : ℤ)) : ℚ) ≤ (delta : ℚ) * d1 := by
      simpa using mul_nonneg hdq hd1.1
    have h1 : (delta : ℚ) * d1 ≤ ((delta : ℤ) : ℚ) := by
      calc (delta : ℚ) * d1 ≤ (delta : ℚ) * 1 := mul_le_mul_of_nonneg_left hd1.2 hdq
        _ = (delta : ℚ) := mul_one _
    have h := @roundDouble_in_Icc 0 delta _ (by norm_num)
      (by rw [abs_le]; omega) h0 h1
    simpa using h
  have hd3 : ((mn : ℤ) : ℚ) ≤ roundDouble ((mn : ℚ) + d2) ∧
      roundDouble ((mn : ℚ) + d2) ≤ ((mxp : ℤ) : ℚ) := by
    refine @roundDouble_in_Icc mn mxp _
      (by rw [abs_le]; constructor <;> omega) (by rw [abs_le]; omega) ?_ ?_
    · linarith [hd2.1]
    · have : (mn : ℚ) + (delta : ℚ) = (mxp : ℚ) := by push_cast [hdelta]; ring
      linarith [hd2.2]
  rw [hps, hfdelta, hfmin, ← hd2def]
  have h := truncQ_in_Icc hd3.1 hd3.2
  rw [← hmxp_eq_max]
  exact h

theorem pwmScalar_at_zero {mn mx : ℤ} (hmn : |mn| ≤ 2 ^ 52) :
    pwmScalar mn mx 0 = mn := by
  have h0 : (((0 : ℤ) : ℚ) / 100) = 0 := by norm_num
  simp only [pwmScalar, h0, roundDouble_zero, mul_zero, add_zero]
  rw [roundDouble_intCast hmn, roundDouble_intCast hmn, truncQ_intCast]

theorem pwmScalar_at_hundred {mn mx : ℤ} (hmn : |mn| ≤ 2 ^ 51) (hmx : |mx| ≤ 2 ^ 51) :
    pwmScalar mn mx 100 = max mn mx := by
  have hbmn := abs_le.mp hmn
  have hbmx := abs_le.mp hmx
  have h1 : (((100 : ℤ) : ℚ) / 100) = 1 := by norm_num
  simp only [pwmScalar, h1, roundDouble_one, mul_one]
  set mxp := if mx < mn then mn else mx with hmxp
  have hbmxp : -(2 ^ 51) ≤ mxp ∧ mxp ≤ 2 ^ 51 := by rw [hmxp]; split_ifs <;> omega
  have hmxp_eq_max : mxp = max mn mx := by
    rw [hmxp]; rcases le_total mn mx with h | h <;> split_ifs <;> omega
  have hfdelta : roundDouble (((mxp - mn : ℤ) : ℚ)) = ((mxp - mn : ℤ) : ℚ) :=
    roundDouble_intCast (by rw [abs_le]; constructor <;> omega)
  have hfmin : roundDouble ((mn : ℚ)) = (mn : ℚ) :=
    roundDouble_intCast (by rw [abs_le]; constructor <;> omega)
  rw [hfdelta, hfdelta, hfmin]
  have hsum : ((mn : ℤ) : ℚ) + ((mxp - mn : ℤ) : ℚ) = ((mxp : ℤ) : ℚ) := by
    push_cast; ring
  rw [hsum, roundDouble_intCast (by rw [abs_le]; constructor <;> omega), truncQ_intCast]
  exact hmxp_eq_max


/-! ## Association-list and slot-array lemmas -/

theorem writeSlots_cons (slots : List ℤ) (c : ℤ) (cs : List ℤ) (v : ℤ) :
    writeSlots slots (c :: cs) v =
      writeSlots (if 0 ≤ c ∧ c.toNat < slots.length then slots.set c.toNat v else slots)
        cs v := rfl

theorem writeSlots_length : ∀ (chans slots : List ℤ) (v : ℤ),
    (writeSlots slots chans v).length = slots.length
  | [], _, _ => rfl
  | c :: cs, slots, v => by
    rw [writeSlots_cons, writeSlots_length cs _ v]
    split_ifs <;> simp

theorem writeSlots_getD_not_mem : ∀ (chans slots : List ℤ) (v : ℤ) (k : ℕ),
    ¬((k : ℤ) ∈ chans) → (writeSlots slots chans v).getD k (-1) = slots.getD k (-1)
  | [], _, _, _, _ => rfl
  | c :: cs, slots, v, k, h => by
    rw [writeSlots_cons,
      writeSlots_getD_not_mem cs _ v k (fun hm => h (List.mem_cons_of_mem c hm))]
    split_ifs with hc
    · have hne : c.toNat ≠ k := by
        intro he
        apply h
        have hck : c = (k : ℤ) := by omega
        rw [hck]
        exact List.mem_cons_self _ _
      simp [List.getD, List.getElem?_set_ne hne]
    · rfl

theorem writeSlots_getD_mem : ∀ (chans slots : List ℤ) (v : ℤ) (k : ℕ),
    (k : ℤ) ∈ chans → k < slots.length → (writeSlots slots chans v).getD k (-1) = v
  | c :: cs, slots, v, k, hm, hk => by
    rw [writeSlots_cons]
    by_cases hin : (k : ℤ) ∈ cs
    · refine writeSlots_getD_mem cs _ v k hin ?_
      split_ifs <;> simpa using hk
    · have hck : c = (k : ℤ) := by
        rcases List.mem_cons.mp hm with h | h
        · exact h.symm
        · exact absurd h hin
      rw [writeSlots_getD_not_mem cs _ v k hin]
      rw [if_pos ⟨by omega, by omega⟩]
      have hck2 : c.toNat = k := by omega
      rw [hck2]
      simp [List.getD, List.getElem?_set_self hk]


theorem alistFind?_set_self {κ β : Type} [DecidableEq κ] :
    ∀ (l : List (κ × β)) (k : κ) (v : β), alistFind? (alistSet l k v) k = some v
  | [], k, v => by simp [alistSet, alistFind?]
  | q :: t, k, v => by
    by_cases hq : q.1 = k
    · simp [alistSet, alistFind?, hq]
    · simp only [alistSet, if_neg hq, alistFind?]
      exact alistFind?_set_self t k v

theorem alistFind?_set_ne {κ β : Type} [DecidableEq κ] :
    ∀ (l : List (κ × β)) (k kp : κ) (v : β), kp ≠ k →
      alistFind? (alistSet l k v) kp = alistFind? l kp
  | [], k, kp, v, h => by
    simp only [alistSet, alistFind?]
    rw [if_neg (fun he : k = kp => h he.symm)]
  | q :: t, k, kp, v, h => by
    by_cases hq : q.1 = k
    · simp only [alistSet, if_pos hq, alistFind?]
      rw [if_neg (fun he : k = kp => h he.symm), if_neg (show ¬q.1 = kp by rw [hq]; exact fun he => h he.symm)]
    · simp only [alistSet, if_neg hq, alistFind?]
      by_cases hqp : q.1 = kp
      · rw [if_pos hqp, if_pos hqp]
      · rw [if_neg hqp, if_neg hqp]
        exact alistFind?_set_ne t k kp v h

theorem alistSet_keys_mem {κ β : Type} [DecidableEq κ] :
    ∀ (l : List (κ × β)) (k x : κ) (v : β),
      x ∈ (alistSet l k v).map Prod.fst → x ∈ l.map Prod.fst ∨ x = k
  | [], k, x, v, h => by right; simpa [alistSet] using h
  | q :: t, k, x, v, h => by
    by_cases hq : q.1 = k
    · simp only [alistSet, if_pos hq, List.map_cons, List.mem_cons] at h
      rcases h with h | h
      · right; exact h
      · left; simp [h]
    · simp only [alistSet, if_neg hq, List.map_cons, List.mem_cons] at h
      rcases h with h | h
      · left; simp [h]
      · rcases alistSet_keys_mem t k x v h with h2 | h2
        · left; simp [h2]
        · right; exact h2

theorem alistSet_keys_nodup {κ β : Type} [DecidableEq κ] :
    ∀ (l : List (κ × β)) (k : κ) (v : β), (l.map Prod.fst).Nodup →
      ((alistSet l k v).map Prod.fst).Nodup
  | [], k, v, _ => by simp [alistSet]
  | q :: t, k, v, h => by
    simp only [List.map_cons, List.nodup_cons] at h
    by_cases hq : q.1 = k
    · simp only [alistSet, if_pos hq, List.map_cons, List.nodup_cons]
      rw [← hq]
      exact h
    · simp only [alistSet, if_neg hq, List.map_cons, List.nodup_cons]
      refine ⟨fun hmem => ?_, alistSet_keys_nodup t k v h.2⟩
      rcases alistSet_keys_mem t k q.1 v hmem with h2 | h2
      · exact h.1 h2
      · exact hq h2

theorem alistSet_mem_of_nodup {κ β : Type} [DecidableEq κ] :
    ∀ (l : List (κ × β)) (k : κ) (v : β) (p : κ × β), (l.map Prod.fst).Nodup →
      p ∈ alistSet l k v → p = (k, v) ∨ (p ∈ l ∧ p.1 ≠ k)
  | [], k, v, p, _, h => by left; simpa [alistSet] using h
  | q :: t, k, v, p, hnd, h => by
    simp only [List.map_cons, List.nodup_cons] at hnd
    by_cases hq : q.1 = k
    · simp only [alistSet, if_pos hq, List.mem_cons] at h
      rcases h with h | h
      · left; exact h
      · right
        refine ⟨List.mem_cons_of_mem q h, fun hpk => ?_⟩
        apply hnd.1
        rw [hq, ← hpk]
        exact List.mem_map_of_mem Prod.fst h
    · simp only [alistSet, if_neg hq, List.mem_cons] at h
      rcases h with h | h
      · right
        rw [h]
        exact ⟨List.mem_cons_self q t, hq⟩
      · rcases alistSet_mem_of_nodup t k v p hnd.2 h with h2 | h2
        · left; exact h2
        · right; exact ⟨List.mem_cons_of_mem q h2.1, h2.2⟩

theorem alistFind?_mem {κ β : Type} [DecidableEq κ] :
    ∀ {l : List (κ × β)} {k : κ} {v : β}, alistFind? l k = some v → (k, v) ∈ l := by
  intro l
  induction l with
  | nil => intro k v h; cases h
  | cons q t ih =>
    intro k v h
    simp only [alistFind?] at h
    split_ifs at h with hq
    · have : q = (k, v) := by
        cases q
        simp_all
      rw [← this]
      exact List.mem_cons_self q t
    · exact List.mem_cons_of_mem q (ih h)

theorem pwmSlotsOk_congr {b : ℤ} {A B : String → ℤ → ℕ → Output → Prop}
    {m : List (String × List (ℤ × List ℤ))}
    (h : ∀ cid dIdx k o, A cid dIdx k o ↔ B cid dIdx k o) (hm : pwmSlotsOk b A m) :
    pwmSlotsOk b B m := by
  intro cid inner hci dIdx slots hds
  obtain ⟨hlen, hk⟩ := hm cid inner hci dIdx slots hds
  refine ⟨hlen, fun k hk4 => ?_⟩
  rcases hk k hk4 with ⟨h1, h2⟩ | ⟨o, h1, h2⟩
  · exact Or.inl ⟨h1, fun ⟨o, ho⟩ => h2 ⟨o, (h _ _ _ _).mpr ho⟩⟩
  · exact Or.inr ⟨o, (h _ _ _ _).mp h1, h2⟩

theorem pwmMapStep_skip {b : ℤ} {incD incF : Bool}
    {A : String → ℤ → ℕ → Output → Prop} {m : List (String × List (ℤ × List ℤ))}
    {d : Driver} {o : Output}
    (hok : pwmSlotsOk b A m)
    (hcomp : ∀ cid dIdx k oo, A cid dIdx k oo →
      ∃ inner slots, alistFind? m cid = some inner ∧ alistFind? inner dIdx = some slots)
    (hnd1 : (m.map Prod.fst).Nodup)
    (hnd2 : ∀ p ∈ m, (p.2.map Prod.fst).Nodup)
    (hstep : pwmMapStep incD incF b m d o = m)
    (hnopair : ∀ cid dIdx k oo, ¬pairAddresses incD incF cid dIdx k (d, o) oo) :
    pwmSlotsOk b
        (fun cid dIdx k oo => A cid dIdx k oo ∨ pairAddresses incD incF cid dIdx k (d, o) oo)
        (pwmMapStep incD incF b m d o) ∧
    (∀ cid dIdx k oo, (A cid dIdx k oo ∨ pairAddresses incD incF cid dIdx k (d, o) oo) →
      ∃ inner slots, alistFind? (pwmMapStep incD incF b m d o) cid = some inner ∧
        alistFind? inner dIdx = some slots) ∧
    ((pwmMapStep incD incF b m d o).map Prod.fst).Nodup ∧
    (∀ p ∈ pwmMapStep incD incF b m d o, (p.2.map Prod.fst).Nodup) := by
  rw [hstep]
  refine ⟨pwmSlotsOk_congr (fun cid dIdx k oo => ?_) hok, fun cid dIdx k oo h => ?_, hnd1, hnd2⟩
  · exact ⟨Or.inl, fun h => h.elim id (fun hp => absurd hp (hnopair _ _ _ _))⟩
  · exact hcomp cid dIdx k oo (h.elim id (fun hp => absurd hp (hnopair _ _ _ _)))

theorem pwmMapStep_inv {b : ℤ} {incD incF : Bool}
    (A : String → ℤ → ℕ → Output → Prop) (m : List (String × List (ℤ × List ℤ)))
    (d : Driver) (o : Output)
    (hok : pwmSlotsOk b A m)
    (hcomp : ∀ cid dIdx k oo, A cid dIdx k oo →
      ∃ inner slots, alistFind? m cid = some inner ∧ alistFind? inner dIdx = some slots)
    (hnd1 : (m.map Prod.fst).Nodup)
    (hnd2 : ∀ p ∈ m, (p.2.map Prod.fst).Nodup) :
    pwmSlotsOk b
        (fun cid dIdx k oo => A cid dIdx k oo ∨ pairAddresses incD incF cid dIdx k (d, o) oo)
        (pwmMapStep incD incF b m d o) ∧
    (∀ cid dIdx k oo, (A cid dIdx k oo ∨ pairAddresses incD incF cid dIdx k (d, o) oo) →
      ∃ inner slots, alistFind? (pwmMapStep incD incF b m d o) cid = some inner ∧
        alistFind? inner dIdx = some slots) ∧
    ((pwmMapStep incD incF b m d o).map Prod.fst).Nodup ∧
    (∀ p ∈ pwmMapStep incD incF b m d o, (p.2.map Prod.fst).Nodup) := by
  by_cases h1 : (!incD && o.disabled) = true
  · refine pwmMapStep_skip hok hcomp hnd1 hnd2 (by simp only [pwmMapStep, h1, if_true])
      (fun cid dIdx k oo hp => ?_)
    obtain ⟨ho, hflag, _⟩ := hp
    rw [← ho] at hflag
    simp only [passesFlags, h1] at hflag
    simp at hflag
  · by_cases h2 : (!incF && o.faulty) = true
    · refine pwmMapStep_skip hok hcomp hnd1 hnd2 (by simp [pwmMapStep, h1, h2])
        (fun cid dIdx k oo hp => ?_)
      obtain ⟨ho, hflag, _⟩ := hp
      rw [← ho] at hflag
      simp only [passesFlags, h2] at hflag
      simp at hflag
    · cases hctl : d.controllerId with
      | none =>
        refine pwmMapStep_skip hok hcomp hnd1 hnd2 (by simp [pwmMapStep, h1, h2, hctl])
          (fun cid dIdx k oo hp => ?_)
        obtain ⟨_, _, hcid, _⟩ := hp
        simp only at hcid
        rw [hctl] at hcid
        cases hcid
      | some cid0 =>
        by_cases hch : (effChannels o).isEmpty = true
        · refine pwmMapStep_skip hok hcomp hnd1 hnd2 (by simp [pwmMapStep, h1, h2, hctl, hch])
            (fun cid dIdx k oo hp => ?_)
          obtain ⟨ho, _, _, _, hkch, _⟩ := hp
          rw [← ho] at hkch
          rw [List.isEmpty_iff] at hch
          rw [hch] at hkch
          cases hkch
        · have hflags : passesFlags incD incF o = true := by
            simp only [passesFlags]
            simp only [Bool.not_eq_true] at h1 h2
            rw [h1, h2]
            rfl
          have hstep : pwmMapStep incD incF b m d o =
              alistSet m cid0
                (alistSet ((alistFind? m cid0).getD []) d.driverIndex
                  (writeSlots
                    ((alistFind? ((alistFind? m cid0).getD []) d.driverIndex).getD
                      [-1, -1, -1, -1])
                    (effChannels o) (pwmScalar o.minPwm o.maxPwm b))) := by
            simp [pwmMapStep, h1, h2, hctl, hch]
          set inner := (alistFind? m cid0).getD [] with hinner
          set slots :=
            (alistFind? inner d.driverIndex).getD [-1, -1, -1, -1] with hslots
          set slots2 := writeSlots slots (effChannels o) (pwmScalar o.minPwm o.maxPwm b)
            with hslots2
          set inner2 := alistSet inner d.driverIndex slots2 with hinner2
          rw [hstep]
          have hinner_nodup : (inner.map Prod.fst).Nodup := by
            rw [hinner]
            cases hf : alistFind? m cid0 with
            | none => simp
            | some i => exact hnd2 (cid0, i) (alistFind?_mem hf)
          have hbase : slots.length = 4 ∧ ∀ k : ℕ, k < 4 →
              ((slots.getD k (-1) = -1 ∧ ¬∃ oo, A cid0 d.driverIndex k oo) ∨
               (∃ oo, A cid0 d.driverIndex k oo ∧
                 slots.getD k (-1) = pwmScalar oo.minPwm oo.maxPwm b)) := by
            cases hf : alistFind? m cid0 with
            | none =>
              refine ⟨by simp [hslots, hinner, hf, alistFind?], fun k hk => Or.inl ⟨?_, ?_⟩⟩
              · rw [hslots, hinner, hf]
                simp only [Option.getD_none, alistFind?]
                interval_cases k <;> rfl
              · rintro ⟨oo, hA⟩
                obtain ⟨i2, s2, hfi, _⟩ := hcomp cid0 d.driverIndex k oo hA
                rw [hf] at hfi
                cases hfi
            | some i =>
              have hmem : (cid0, i) ∈ m := alistFind?_mem hf
              have hinner_eq : inner = i := by rw [hinner, hf]; rfl
              cases hfi : alistFind? i d.driverIndex with
              | none =>
                refine ⟨by simp [hslots, hinner_eq, hfi], fun k hk => Or.inl ⟨?_, ?_⟩⟩
                · rw [hslots, hinner_eq, hfi]
                  simp only [Option.getD_none]
                  interval_cases k <;> rfl
                · rintro ⟨oo, hA⟩
                  obtain ⟨i2, s2, hfi2, hfs2⟩ := hcomp cid0 d.driverIndex k oo hA
                  rw [hf] at hfi2
                  cases hfi2
                  rw [hfi] at hfs2
                  cases hfs2
              | some s =>
                have hmem2 : (d.driverIndex, s) ∈ i := alistFind?_mem hfi
                have hs_eq : slots = s := by rw [hslots, hinner_eq, hfi]; rfl
                rw [hs_eq]
                exact hok cid0 i hmem d.driverIndex s hmem2
          refine ⟨?_, ?_, alistSet_keys_nodup m cid0 inner2 hnd1, ?_⟩
          · intro cid innerX hci dIdx slotsX hds
            rcases alistSet_mem_of_nodup m cid0 inner2 (cid, innerX) hnd1 hci with
              heq | ⟨hold, hne⟩
            · rw [Prod.ext_iff] at heq
              obtain ⟨hc1, hc2⟩ := heq
              simp only at hc1 hc2
              rw [hc1]
              rw [hc2] at hds
              rcases alistSet_mem_of_nodup inner d.driverIndex slots2 (dIdx, slotsX)
                hinner_nodup hds with heq2 | ⟨hold2, hne2⟩
              · rw [Prod.ext_iff] at heq2
                obtain ⟨hd1, hd2⟩ := heq2
                simp only at hd1 hd2
                rw [hd1]
                refine ⟨by rw [hd2, hslots2, writeSlots_length]; exact hbase.1,
                  fun k hk4 => ?_⟩
                by_cases hkc : (k : ℤ) ∈ effChannels o
                · refine Or.inr ⟨o, Or.inr ⟨rfl, hflags, by rw [hctl], rfl, hkc, hk4⟩, ?_⟩
                  rw [hd2, hslots2]
                  exact writeSlots_getD_mem (effChannels o) slots _ k hkc
                    (by rw [hbase.1]; exact hk4)
                · have hval : slotsX.getD k (-1) = slots.getD k (-1) := by
                    rw [hd2, hslots2]
                    exact writeSlots_getD_not_mem (effChannels o) slots _ k hkc
                  rw [hval]
                  rcases hbase.2 k hk4 with ⟨ha, hb⟩ | ⟨oo, ha, hb⟩
                  · refine Or.inl ⟨ha, ?_⟩
                    rintro ⟨oo, hoo | hoo⟩
                    · exact hb ⟨oo, hoo⟩
                    · obtain ⟨hooo, _, _, _, hkch, _⟩ := hoo
                      rw [← hooo] at hkch
                      exact hkc hkch
                  · exact Or.inr ⟨oo, Or.inl ha, hb⟩
              · -- untouched driver entry within the updated controller entry
                have hinner_some : alistFind? m cid0 = some inner := by
                  cases hf : alistFind? m cid0 with
                  | none =>
                    rw [hinner, hf] at hold2
                    cases hold2
                  | some i => rw [hinner, hf]; rfl
                have hmem : (cid0, inner) ∈ m := alistFind?_mem hinner_some
                obtain ⟨hlen, hk⟩ := hok cid0 inner hmem dIdx slotsX hold2
                refine ⟨hlen, fun k hk4 => ?_⟩
                have hnp : ∀ oo, ¬pairAddresses incD incF cid0 dIdx k (d, o) oo := by
                  intro oo hp
                  obtain ⟨_, _, _, hdi, _, _⟩ := hp
                  exact hne2 (by rw [← hdi])
                rcases hk k hk4 with ⟨ha, hb⟩ | ⟨oo, ha, hb⟩
                · exact Or.inl ⟨ha, fun ⟨oo, hoo⟩ =>
                    hoo.elim (fun hA => hb ⟨oo, hA⟩) (hnp oo)⟩
                · exact Or.inr ⟨oo, Or.inl ha, hb⟩
            · obtain ⟨hlen, hk⟩ := hok cid innerX hold dIdx slotsX hds
              refine ⟨hlen, fun k hk4 => ?_⟩
              have hnp : ∀ oo, ¬pairAddresses incD incF cid dIdx k (d, o) oo := by
                intro oo hp
                obtain ⟨_, _, hcid, _⟩ := hp
                simp only at hcid
                rw [hctl] at hcid
                injection hcid with hcid2
                exact hne hcid2.symm
              rcases hk k hk4 with ⟨ha, hb⟩ | ⟨oo, ha, hb⟩
              · exact Or.inl ⟨ha, fun ⟨oo, hoo⟩ =>
                  hoo.elim (fun hA => hb ⟨oo, hA⟩) (hnp oo)⟩
              · exact Or.inr ⟨oo, Or.inl ha, hb⟩
          · intro cid dIdx k oo hA2
            rcases hA2 with hA | hp
            · obtain ⟨i2, s2, hfi, hfs⟩ := hcomp cid dIdx k oo hA
              by_cases hc : cid = cid0
              · subst hc
                have hinner_eq : inner = i2 := by rw [hinner, hfi]; rfl
                by_cases hd2 : dIdx = d.driverIndex
                · subst hd2
                  exact ⟨inner2, slots2, alistFind?_set_self m cid inner2,
                    alistFind?_set_self inner d.driverIndex slots2⟩
                · refine ⟨inner2, s2, alistFind?_set_self m cid inner2, ?_⟩
                  rw [hinner2, alistFind?_set_ne inner d.driverIndex dIdx slots2 hd2,
                    hinner_eq]
                  exact hfs
              · refine ⟨i2, s2, ?_, hfs⟩
                rw [alistFind?_set_ne m cid0 cid inner2 hc]
                exact hfi
            · obtain ⟨_, _, hcid, hdi, _, _⟩ := hp
              simp only at hcid hdi
              rw [hctl] at hcid
              injection hcid with hcid2
              subst hcid2
              subst hdi
              exact ⟨inner2, slots2, alistFind?_set_self m cid0 inner2,
                alistFind?_set_self inner d.driverIndex slots2⟩
          · intro p hp
            rcases alistSet_mem_of_nodup m cid0 inner2 p hnd1 hp with heq | ⟨hold, _⟩
            · rw [heq]
              exact alistSet_keys_nodup inner d.driverIndex slots2 hinner_nodup
            · exact hnd2 p hold

theorem pwmMapFold_inv {b : ℤ} {incD incF : Bool} :
    ∀ (l : List (Driver × Output)) (A : String → ℤ → ℕ → Output → Prop)
      (m : List (String × List (ℤ × List ℤ))),
      pwmSlotsOk b A m →
      (∀ cid dIdx k oo, A cid dIdx k oo →
        ∃ inner slots, alistFind? m cid = some inner ∧ alistFind? inner dIdx = some slots) →
      (m.map Prod.fst).Nodup →
      (∀ p ∈ m, (p.2.map Prod.fst).Nodup) →
      pwmSlotsOk b
        (fun cid dIdx k o => A cid dIdx k o ∨ addressesSlot l incD incF cid dIdx k o)
        (l.foldl (fun mm p => pwmMapStep incD incF b mm p.1 p.2) m)
  | [], A, m, hok, _, _, _ => by
    simp only [List.foldl_nil]
    refine pwmSlotsOk_congr (fun cid dIdx k o => ⟨Or.inl, ?_⟩) hok
    rintro (h | ⟨p, hp, _⟩)
    · exact h
    · cases hp
  | pr :: t, A, m, hok, hcomp, hnd1, hnd2 => by
    simp only [List.foldl_cons]
    obtain ⟨hok2, hcomp2, hnd12, hnd22⟩ :=
      pwmMapStep_inv A m pr.1 pr.2 hok hcomp hnd1 hnd2
    have ih := @pwmMapFold_inv b incD incF t
      (fun cid dIdx k o => A cid dIdx k o ∨ pairAddresses incD incF cid dIdx k (pr.1, pr.2) o)
      (pwmMapStep incD incF b m pr.1 pr.2) hok2 hcomp2 hnd12 hnd22
    refine pwmSlotsOk_congr (fun cid dIdx k o => ?_) ih
    constructor
    · rintro ((h | h) | ⟨p, hp, hpa⟩)
      · exact Or.inl h
      · exact Or.inr ⟨pr, List.mem_cons_self pr t, h⟩
      · exact Or.inr ⟨p, List.mem_cons_of_mem pr hp, hpa⟩
    · rintro (h | ⟨p, hp, hpa⟩)
      · exact Or.inl (Or.inl h)
      · rcases List.mem_cons.mp hp with rfl | hp2
        · exact Or.inl (Or.inr hpa)
        · exact Or.inr ⟨p, hp2, hpa⟩

theorem buildGroupPwmMap_ok (r : Registry) (gid : String) (incD incF : Bool)
    (brightness : Option ℤ) (g : Group) (hg : getGroup r gid = some g) :
    pwmSlotsOk (clampBrightness brightness g)
      (addressesSlot (resolveOutputIds r.drivers g.ledIds) incD incF)
      (buildGroupPwmMap r gid incD incF brightness) := by
  have hbase : pwmSlotsOk (clampBrightness brightness g)
      (fun _ _ _ _ => False) ([] : List (String × List (ℤ × List ℤ))) := by
    intro cid inner hci
    cases hci
  have h := @pwmMapFold_inv (clampBrightness brightness g) incD
    incF (resolveOutputIds r.drivers g.ledIds) (fun _ _ _ _ => False) []
    hbase (by rintro _ _ _ _ ⟨⟩) (by simp) (by rintro p ⟨⟩)
  have hb : buildGroupPwmMap r gid incD incF brightness =
      (resolveOutputIds r.drivers g.ledIds).foldl
        (fun m p => pwmMapStep incD incF (clampBrightness brightness g) m p.1 p.2) [] := by
    simp only [buildGroupPwmMap, hg]
  rw [hb]
  refine pwmSlotsOk_congr (fun cid dIdx k o => ?_) h
  constructor
  · rintro (h2 | h2)
    · cases h2
    · exact h2
  · exact Or.inr

/-! ## Claim C1: derived group state -/

theorem groupDerivedOn_true_iff (drivers : List Driver) (g : Group) :
    groupDerivedOn drivers g = true ↔
      ((resolveOutputIds drivers g.ledIds).filter (fun p => !p.2.disabled) ≠ [] ∧
       ∀ p ∈ (resolveOutputIds drivers g.ledIds).filter (fun p => !p.2.disabled),
         0 < p.2.level ∨ p.2.faulty = true) := by
  unfold groupDerivedOn
  by_cases he : ((resolveOutputIds drivers g.ledIds).filter
      (fun p => !p.2.disabled)).isEmpty = true
  · rw [List.isEmpty_iff] at he
    simp [he]
  · have hne : (resolveOutputIds drivers g.ledIds).filter (fun p => !p.2.disabled) ≠ [] :=
      fun h => he (by rw [h]; rfl)
    rw [if_neg he]
    simp only [List.all_eq_true, decide_eq_true_eq, Bool.or_eq_true]
    constructor
    · exact fun hall => ⟨hne, fun p hp => by
        rcases hall p hp with h | h
        · exact Or.inl h
        · exact Or.inr h⟩
    · rintro ⟨_, hall⟩ p hp
      rcases hall p hp with h | h
      · exact Or.inl h
      · exact Or.inr h

/-- C1: after `_update_groups_from_output_ids` runs for a set of changed
output ids, the drivers are untouched, and every group whose member list
intersects the changed ids ends with its derived flag true iff the group has
at least one enabled resolvable member output and every such member is lit
(level > 0) or currently faulted — in particular false with zero enabled
members. -/
theorem c1_group_is_on_iff (r : Registry) (outputIds : List String) (g : Group)
    (hg : g ∈ (updateGroupsFromOutputIds r outputIds).1.groups)
    (ht : ∃ lid ∈ g.ledIds, lid ∈ outputIds) :
    (updateGroupsFromOutputIds r outputIds).1.drivers = r.drivers ∧
    (g.isOn = true ↔
      ((resolveOutputIds r.drivers g.ledIds).filter (fun p => !p.2.disabled) ≠ [] ∧
       ∀ p ∈ (resolveOutputIds r.drivers g.ledIds).filter (fun p => !p.2.disabled),
         0 < p.2.level ∨ p.2.faulty = true)) := by
  refine ⟨by unfold updateGroupsFromOutputIds; split_ifs <;> rfl, ?_⟩
  have hne : outputIds.isEmpty = false := by
    rcases ht with ⟨lid, _, hmem⟩
    cases outputIds with
    | nil => cases hmem
    | cons a t => rfl
  have hgroups : (updateGroupsFromOutputIds r outputIds).1.groups =
      r.groups.map (fun g2 =>
        if groupTouched outputIds g2 && (g2.isOn != groupDerivedOn r.drivers g2) then
          { g2 with isOn := groupDerivedOn r.drivers g2 }
        else g2) := by
    unfold updateGroupsFromOutputIds
    rw [if_neg (by simp [hne])]
  rw [hgroups] at hg
  rcases List.mem_map.mp hg with ⟨g0, hg0, hfg⟩
  by_cases hcond : (groupTouched outputIds g0 && (g0.isOn != groupDerivedOn r.drivers g0))
      = true
  · rw [if_pos hcond] at hfg
    have hled : g.ledIds = g0.ledIds := by rw [← hfg]
    have hisOn : g.isOn = groupDerivedOn r.drivers g0 := by rw [← hfg]
    have hder : groupDerivedOn r.drivers g0 = groupDerivedOn r.drivers g := by
      unfold groupDerivedOn
      rw [hled]
    rw [hisOn, hder, ← groupDerivedOn_true_iff]
  · rw [if_neg hcond] at hfg
    have hgg : g = g0 := hfg.symm
    subst hgg
    have htouch : groupTouched outputIds g = true := by
      rcases ht with ⟨lid, hl, hmem⟩
      unfold groupTouched
      rw [List.any_eq_true]
      exact ⟨lid, hl, by simpa using hmem⟩
    have hison : g.isOn = groupDerivedOn r.drivers g := by
      rw [htouch] at hcond
      simp only [Bool.true_and, bne_iff_ne, ne_eq, not_not] at hcond
      exact hcond
    rw [hison, ← groupDerivedOn_true_iff]

/-- Witness for C1 at a concrete registry: the group over the lit output
`o1` derives `is_on = true` after the update. -/
theorem c1_group_is_on_iff_witness :
    ({ grpW1 with isOn := true } ∈ (updateGroupsFromOutputIds regW1 ["o1"]).1.groups) ∧
    (∃ lid ∈ (Group.ledIds { grpW1 with isOn := true }), lid ∈ ["o1"]) ∧
    ((updateGroupsFromOutputIds regW1 ["o1"]).1.drivers = regW1.drivers ∧
     ((Group.isOn { grpW1 with isOn := true } = true) ↔
      ((resolveOutputIds regW1.drivers (Group.ledIds { grpW1 with isOn := true })).filter
          (fun p => !p.2.disabled) ≠ [] ∧
       ∀ p ∈ (resolveOutputIds regW1.drivers
            (Group.ledIds { grpW1 with isOn := true })).filter (fun p => !p.2.disabled),
         0 < p.2.level ∨ p.2.faulty = true))) :=
  ⟨by with_unfolding_all decide, by decide,
   c1_group_is_on_iff regW1 ["o1"] { grpW1 with isOn := true }
     (by with_unfolding_all decide) (by decide)⟩

/-! ## Claim C6: button upsert rejections -/

/-- C6: `async_upsert_button` rejects a mask that is not a single set bit, a
mask already held by a sibling button on the same switch, and a new button on
a switch that already has as many buttons as its configured count; every
rejection raises before any mutation, so the registry is returned unchanged
and no commit happens. -/
theorem c6_button_upsert_rejections (fid : String) (r : Registry) (p : ButtonPayload) :
    (singleBitMask p.mask = false →
      ∃ e, upsertButton fid r p = (r, Except.error e, false)) ∧
    (∀ sw sid, resolveButtonParent r p = some (sw, sid) →
      singleBitMask p.mask = true →
      (buttonSiblings r sid (orStr p.id fid)).any (fun b => b.mask = p.mask) = true →
      upsertButton fid r p =
        (r, Except.error "Button mask already assigned for this switch", false)) ∧
    (∀ sw sid, resolveButtonParent r p = some (sw, sid) →
      singleBitMask p.mask = true →
      (buttonSiblings r sid (orStr p.id fid)).any (fun b => b.mask = p.mask) = false →
      r.buttons.any (fun b => b.id = orStr p.id fid) = false →
      sw.buttonCount ≤ ((buttonSiblings r sid (orStr p.id fid)).length : ℤ) →
      upsertButton fid r p =
        (r, Except.error "Configured button limit reached for this switch", false)) := by
  refine ⟨fun hmask => ?_, fun sw sid hres hmask hdup => ?_,
    fun sw sid hres hmask hdup hnew hlim => ?_⟩
  · unfold upsertButton
    cases hres : resolveButtonParent r p with
    | none => exact ⟨_, rfl⟩
    | some pr =>
      rw [hmask]
      exact ⟨_, rfl⟩
  · unfold upsertButton
    rw [hres, hmask]
    simp only [Bool.not_true, Bool.false_eq_true, if_false, hdup, if_true]
  · unfold upsertButton
    rw [hres, hmask]
    simp only [Bool.not_true, Bool.false_eq_true, if_false, hdup, hnew,
      Bool.not_false, Bool.true_and, decide_eq_true_eq]
    rw [if_pos hlim]

/-- Witness for C6 at a concrete registry: a two-bit mask, a duplicated mask
and a button-count overflow are each rejected with the registry unchanged and
no commit. -/
theorem c6_button_upsert_rejections_witness :
    (singleBitMask payC6bad.mask = false ∧
      ∃ e, upsertButton "f" regW6 payC6bad = (regW6, Except.error e, false)) ∧
    (upsertButton "f" regW6 payC6dup =
      (regW6, Except.error "Button mask already assigned for this switch", false)) ∧
    (upsertButton "f" regW6 payC6limit =
      (regW6, Except.error "Configured button limit reached for this switch", false)) := by
  refine ⟨⟨by with_unfolding_all decide,
    (c6_button_upsert_rejections "f" regW6 payC6bad).1 (by with_unfolding_all decide)⟩,
    ?_, ?_⟩
  · exact (c6_button_upsert_rejections "f" regW6 payC6dup).2.1
      { id := "sw1", name := "SW", switch := 7, type := "momentary", buttonCount := 1,
        hasBuzzer := false, flashLeds := true } "sw1"
      (by with_unfolding_all decide) (by with_unfolding_all decide)
      (by with_unfolding_all decide)
  · exact (c6_button_upsert_rejections "f" regW6 payC6limit).2.2
      { id := "sw1", name := "SW", switch := 7, type := "momentary", buttonCount := 1,
        hasBuzzer := false, flashLeds := true } "sw1"
      (by with_unfolding_all decide) (by with_unfolding_all decide)
      (by with_unfolding_all decide) (by with_unfolding_all decide)
      (by with_unfolding_all decide)

/-! ## Claim C7: channel-state event with no matching output -/

/-- C7 counterexample: processing a channel-state event that matches no
output still mutates the Registry (the receiving controller's serial log
grows by one entry) and performs one commit, contradicting the claimed
"no Registry mutation and no commit". -/
theorem c7_counterexample :
    processLedChannelState regC7 "c1" evC7 1000 =
      ({ regC7 with controllers := [ctrlC7Logged] }, 1, []) ∧
    ({ regC7 with controllers := [ctrlC7Logged] } : Registry) ≠ regC7 ∧
    (1 : ℕ) ≠ 0 := by
  refine ⟨by with_unfolding_all rfl, ?_, by decide⟩
  intro h
  have := congrArg (fun r : Registry => r.controllers.map (fun c => c.serialLog.length)) h
  simp [ctrlC7Logged, regC7, emptyRegistry] at this

/-- C7 (amended): when a channel-state event matches no output, processing it
performs exactly the unconditional serial-log append and its single commit:
drivers, groups, switches, buttons and learned buttons are all unchanged,
controllers other than the addressed one are unchanged, no second commit
happens and nothing is broadcast. -/
theorem c7_no_match_single_commit (r : Registry) (cid : String)
    (ev : ChannelEventFields) (now : ℤ)
    (h : matchPairs r.drivers cid ev.dvr ev.c ev.i = ([], [])) :
    processLedChannelState r cid ev now = (appendSerialLog r cid "rx" now, 1, []) ∧
    (appendSerialLog r cid "rx" now).drivers = r.drivers ∧
    (appendSerialLog r cid "rx" now).groups = r.groups ∧
    (appendSerialLog r cid "rx" now).switches = r.switches ∧
    (appendSerialLog r cid "rx" now).buttons = r.buttons ∧
    (appendSerialLog r cid "rx" now).learnedButtons = r.learnedButtons ∧
    ∀ c ∈ r.controllers, c.id ≠ cid → c ∈ (appendSerialLog r cid "rx" now).controllers := by
  have hdr : (appendSerialLog r cid "rx" now).drivers = r.drivers := rfl
  have happ : applyChannelStateEvent (appendSerialLog r cid "rx" now) cid ev =
      (appendSerialLog r cid "rx" now, []) := by
    unfold applyChannelStateEvent
    rw [hdr, h]
    rfl
  refine ⟨?_, rfl, rfl, rfl, rfl, rfl, fun c hc hne => ?_⟩
  · unfold processLedChannelState
    simp only [happ, List.isEmpty_nil, if_true]
  · unfold appendSerialLog
    simp only [List.mem_map]
    exact ⟨c, hc, by rw [if_neg hne]⟩

/-- Witness for C7 (amended) at the concrete no-match registry. -/
theorem c7_no_match_single_commit_witness :
    processLedChannelState regC7 "c1" evC7 1000 =
      (appendSerialLog regC7 "c1" "rx" 1000, 1, []) ∧
    (appendSerialLog regC7 "c1" "rx" 1000).drivers = regC7.drivers ∧
    (appendSerialLog regC7 "c1" "rx" 1000).groups = regC7.groups ∧
    (appendSerialLog regC7 "c1" "rx" 1000).switches = regC7.switches ∧
    (appendSerialLog regC7 "c1" "rx" 1000).buttons = regC7.buttons ∧
    (appendSerialLog regC7 "c1" "rx" 1000).learnedButtons = regC7.learnedButtons ∧
    ∀ c ∈ regC7.controllers, c.id ≠ "c1" →
      c ∈ (appendSerialLog regC7 "c1" "rx" 1000).controllers :=
  c7_no_match_single_commit regC7 "c1" evC7 1000 (by with_unfolding_all decide)

/-! ## Claim C8: double-press handling -/

/-- C8: a rising-edge press landing within the 0.5 s window after the same
button's last release reverses the stored ramp direction (multiplies it by
-1) and does not toggle the bound group; a press outside that window (or with
no previous release) keeps the direction and requests a toggle exactly when a
group is bound. -/
theorem c8_double_press (bs : ButtonRuntimeState) (now : ℚ) :
    (bs.lastRelease ≠ 0 → now - bs.lastRelease ≤ 1 / 2 →
      handleButtonPress bs now =
        ({ bs with pressed := true, holdStarted := now, lastPress := now,
                   direction := bs.direction * -1 }, false)) ∧
    ((bs.lastRelease = 0 ∨ 1 / 2 < now - bs.lastRelease) →
      (handleButtonPress bs now).1.direction = bs.direction ∧
      ((handleButtonPress bs now).2 = true ↔ strTruthy bs.groupId = true)) := by
  constructor
  · intro h1 h2
    have hc : (decide (bs.lastRelease ≠ 0) && decide (now - bs.lastRelease ≤ 1 / 2))
        = true := by
      rw [Bool.and_eq_true, decide_eq_true_eq, decide_eq_true_eq]
      exact ⟨h1, h2⟩
    simp only [handleButtonPress, hc, if_true]
  · intro h
    have hc : (decide (bs.lastRelease ≠ 0) && decide (now - bs.lastRelease ≤ 1 / 2))
        = false := by
      rcases h with h | h
      · simp [h]
      · simp only [Bool.and_eq_false_iff, decide_eq_false_iff_not, not_le]
        right
        exact h
    simp only [handleButtonPress, hc, Bool.false_eq_true, if_false]
    by_cases hg : strTruthy bs.groupId = true
    · simp [hg]
    · simp only [Bool.not_eq_true] at hg
      simp [hg]

/-- Witness for C8: with the last release at t = 10, a press at t = 10.25
reverses the direction without toggling, and a press at t = 11 keeps the
direction and toggles the bound group. -/
theorem c8_double_press_witness :
    (handleButtonPress bsW8 (10 + 1 / 4) =
      ({ bsW8 with pressed := true, holdStarted := 10 + 1 / 4,
                   lastPress := 10 + 1 / 4, direction := bsW8.direction * -1 }, false)) ∧
    ((handleButtonPress bsW8 11).1.direction = bsW8.direction ∧
     ((handleButtonPress bsW8 11).2 = true ↔ strTruthy bsW8.groupId = true)) :=
  ⟨(c8_double_press bsW8 (10 + 1 / 4)).1 (by with_unfolding_all decide)
      (by with_unfolding_all decide),
   (c8_double_press bsW8 11).2 (Or.inr (by with_unfolding_all decide))⟩


/-! ## Claim C2: group "on" batches and the disabled/faulty filters -/

/-- C2 counterexample: in `regC2` channel 0 belongs only to a disabled output
and channel 1 only to a faulted output, yet the "on" batch assigns PWM 255 to
both channels, because the "on" path builds the map with
`include_disabled=True, include_faulty=True`. -/
theorem c2_counterexample :
    applyGroupAction regC2 ["c1"] "g1" "on" =
      Except.ok [("c1",
        { a := "on", drvs := [{ drv := 0, cs := [255, 255, -1, -1] }] })] ∧
    (∀ d ∈ regC2.drivers, ∀ o ∈ d.outputs,
      (0 : ℤ) ∈ effChannels o → o.disabled = true) ∧
    (∀ d ∈ regC2.drivers, ∀ o ∈ d.outputs,
      (1 : ℤ) ∈ effChannels o → o.faulty = true) ∧
    (255 : ℤ) ≠ -1 := by
  refine ⟨by with_unfolding_all rfl, by with_unfolding_all decide,
    by with_unfolding_all decide, by decide⟩

/-- C2 (amended): every non-"off" group action sends the PWM map built with
`include_disabled = true` and `include_faulty = true` — the flag filter passes
every output, disabled or faulted — and each addressed slot of that map
carries the double-precision PWM of an addressing output. -/
theorem c2_on_batch_flags (r : Registry) (connected : List String)
    (gid action : String) (g : Group)
    (hg : getGroup r gid = some g) (hact : ¬ lowerStr action = "off") :
    applyGroupAction r connected gid action =
      (if (buildGroupPwmMap r gid true true (some g.brightness)).isEmpty
       then Except.error ("No LEDs assigned to group " ++ gid)
       else mapToMessages connected action
              (buildGroupPwmMap r gid true true (some g.brightness))) ∧
    (∀ o : Output, passesFlags true true o = true) ∧
    pwmSlotsOk (clampBrightness (some g.brightness) g)
      (addressesSlot (resolveOutputIds r.drivers g.ledIds) true true)
      (buildGroupPwmMap r gid true true (some g.brightness)) := by
  refine ⟨?_, fun o => by simp [passesFlags], buildGroupPwmMap_ok r gid true true
    (some g.brightness) g hg⟩
  unfold applyGroupAction
  rw [hg]
  simp only [if_neg hact]

/-- Witness for C2 (amended) at the concrete registry `regC2`. -/
theorem c2_on_batch_flags_witness :
    (applyGroupAction regC2 ["c1"] "g1" "on" =
      (if (buildGroupPwmMap regC2 "g1" true true (some grpC2.brightness)).isEmpty
       then Except.error ("No LEDs assigned to group " ++ "g1")
       else mapToMessages ["c1"] "on"
              (buildGroupPwmMap regC2 "g1" true true (some grpC2.brightness))) ∧
    (∀ o : Output, passesFlags true true o = true) ∧
    pwmSlotsOk (clampBrightness (some grpC2.brightness) grpC2)
      (addressesSlot (resolveOutputIds regC2.drivers grpC2.ledIds) true true)
      (buildGroupPwmMap regC2 "g1" true true (some grpC2.brightness))) :=
  c2_on_batch_flags regC2 ["c1"] "g1" "on" grpC2 (by with_unfolding_all rfl)
    (by decide)

/-! ## Claim C3: the PWM formula -/

set_option maxRecDepth 8000

/-- C3 counterexample: with clamp range [0, 100] and brightness 29 the map
stores 28, but the exact formula `min + trunc((max - min) * b / 100)` of the
claim gives 29 — the source computes in double precision, which rounds
`29/100` below the exact value. -/
theorem c3_counterexample :
    buildGroupPwmMap regC3 "g1" false false none =
      [("c1", [(0, [28, -1, -1, -1])])] ∧
    pwmSpecFormula 0 100 29 = 29 ∧
    (∀ d ∈ regC3.drivers, ∀ o ∈ d.outputs, o.minPwm = 0 ∧ o.maxPwm = 100) ∧
    getGroup regC3 "g1" = some grpC3 ∧ grpC3.brightness = 29 ∧
    (28 : ℤ) ≠ 29 := by
  refine ⟨by with_unfolding_all rfl, by with_unfolding_all decide,
    by with_unfolding_all decide, by with_unfolding_all rfl, rfl, by decide⟩

/-- C3 (amended): each addressed slot of the PWM map carries the
double-precision evaluation `pwmScalar` of that output's own clamp range and
unaddressed slots stay -1; the endpoints still agree with the claim for
representable clamp values (brightness 0 gives `min_pwm`, brightness 100
gives `max_pwm` up to the inverted-range coercion), and the claim's two
sample points hold (50% of [0,255] is 127, 50% of [10,200] is 105), but at
intermediate brightness the value is the float truncation, which can differ
from the exact formula by one. -/
theorem c3_pwm_map_double_precision (r : Registry) (gid : String)
    (brightness : Option ℤ) (g : Group) (hg : getGroup r gid = some g) :
    pwmSlotsOk (clampBrightness brightness g)
      (addressesSlot (resolveOutputIds r.drivers g.ledIds) false false)
      (buildGroupPwmMap r gid false false brightness) ∧
    (∀ mn mx : ℤ, |mn| ≤ 2 ^ 52 → pwmScalar mn mx 0 = mn) ∧
    (∀ mn mx : ℤ, |mn| ≤ 2 ^ 51 → |mx| ≤ 2 ^ 51 →
      pwmScalar mn mx 100 = max mn mx) ∧
    pwmScalar 0 255 50 = 127 ∧ pwmScalar 10 200 50 = 105 :=
  ⟨buildGroupPwmMap_ok r gid false false brightness g hg,
   fun _ _ h => pwmScalar_at_zero h,
   fun _ _ h1 h2 => pwmScalar_at_hundred h1 h2,
   by with_unfolding_all decide, by with_unfolding_all decide⟩

/-- Witness for C3 (amended) at the concrete registry `regC3`. -/
theorem c3_pwm_map_double_precision_witness :
    pwmSlotsOk (clampBrightness none grpC3)
      (addressesSlot (resolveOutputIds regC3.drivers grpC3.ledIds) false false)
      (buildGroupPwmMap regC3 "g1" false false none) ∧
    (∀ mn mx : ℤ, |mn| ≤ 2 ^ 52 → pwmScalar mn mx 0 = mn) ∧
    (∀ mn mx : ℤ, |mn| ≤ 2 ^ 51 → |mx| ≤ 2 ^ 51 →
      pwmScalar mn mx 100 = max mn mx) ∧
    pwmScalar 0 255 50 = 127 ∧ pwmScalar 10 200 50 = 105 :=
  c3_pwm_map_double_precision regC3 "g1" none grpC3 (by with_unfolding_all rfl)

/-! ## Claim C10: clamp-range bounds of the PWM map -/

/-- The clamped brightness is nonnegative. -/
theorem clampBrightness_nonneg (b : Option ℤ) (g : Group) :
    0 ≤ clampBrightness b g :=
  le_max_left _ _

/-- The clamped brightness is at most 100. -/
theorem clampBrightness_le_hundred (b : Option ℤ) (g : Group) :
    clampBrightness b g ≤ 100 := by
  simp only [clampBrightness]
  exact max_le (by norm_num) (min_le_left _ _)

/-- The inverted-range coercion of `pwmScalar` as an equation. -/
theorem pwmScalar_max_coerce (mn mx b : ℤ) :
    pwmScalar mn mx b = pwmScalar mn (max mn mx) b := by
  have h1 : (if mx < mn then mn else mx) = max mn mx := by
    rcases lt_or_le mx mn with h | h
    · rw [if_pos h, max_eq_left h.le]
    · rw [if_neg (not_lt.mpr h), max_eq_right h]
  have h2 : (if max mn mx < mn then mn else max mn mx) = max mn mx :=
    if_neg (not_lt.mpr (le_max_left mn mx))
  simp only [pwmScalar]
  rw [h1, h2]

/-- C10 counterexample: an output whose clamp bounds are 2^53 + 1 produces
the slot value 2^53, strictly below its own `min_pwm`, because the int→float
conversions in the PWM formula round 2^53 + 1 down to 2^53. -/
theorem c10_counterexample :
    buildGroupPwmMap regC10 "g1" false false none =
      [("c1", [(0, [2 ^ 53, -1, -1, -1])])] ∧
    (∀ d ∈ regC10.drivers, ∀ o ∈ d.outputs,
      o.minPwm = 2 ^ 53 + 1 ∧ o.maxPwm = 2 ^ 53 + 1) ∧
    ¬ ((2 ^ 53 + 1 : ℤ) ≤ 2 ^ 53) := by
  refine ⟨by with_unfolding_all rfl, by with_unfolding_all decide, by decide⟩

/-- C10 (amended): the brightness is clamped to [0, 100] and an inverted clamp
range is coerced to `max_pwm = min_pwm` before the formula, and whenever every
resolved member output's clamp bounds are at most 2^51 in magnitude — so the
float roundings stay bracketed — every addressed slot value lies within
[min_pwm, max(min_pwm, max_pwm)] of an output addressing it; unaddressed
slots stay -1. (Without the magnitude restriction the bounds fail: see the
counterexample.) -/
theorem c10_pwm_bounds (r : Registry) (gid : String) (brightness : Option ℤ)
    (g : Group) (hg : getGroup r gid = some g)
    (hbnd : ∀ p ∈ resolveOutputIds r.drivers g.ledIds,
      |p.2.minPwm| ≤ 2 ^ 51 ∧ |p.2.maxPwm| ≤ 2 ^ 51) :
    (0 ≤ clampBrightness brightness g ∧ clampBrightness brightness g ≤ 100) ∧
    (∀ mn mx b : ℤ, pwmScalar mn mx b = pwmScalar mn (max mn mx) b) ∧
    (∀ cid inner, (cid, inner) ∈ buildGroupPwmMap r gid false false brightness →
      ∀ dIdx slots, (dIdx, slots) ∈ inner →
        slots.length = 4 ∧
        ∀ k : ℕ, k < 4 →
          slots.getD k (-1) = -1 ∨
          ∃ o, addressesSlot (resolveOutputIds r.drivers g.ledIds) false false
                cid dIdx k o ∧
            o.minPwm ≤ slots.getD k (-1) ∧
            slots.getD k (-1) ≤ max o.minPwm o.maxPwm) := by
  refine ⟨⟨clampBrightness_nonneg brightness g, clampBrightness_le_hundred brightness g⟩,
    pwmScalar_max_coerce, ?_⟩
  have hok := buildGroupPwmMap_ok r gid false false brightness g hg
  intro cid inner hin dIdx slots hs
  obtain ⟨hlen, hk⟩ := hok cid inner hin dIdx slots hs
  refine ⟨hlen, fun k hk4 => ?_⟩
  rcases hk k hk4 with ⟨hval, -⟩ | ⟨o, hA, hval⟩
  · exact Or.inl hval
  · right
    have hA2 := hA
    obtain ⟨p, hp, hpo, -⟩ := hA2
    obtain ⟨hmn, hmx⟩ := hbnd p hp
    rw [hpo] at hmn hmx
    obtain ⟨hlo, hhi⟩ :=
      pwmScalar_bounds (clampBrightness_nonneg brightness g)
        (clampBrightness_le_hundred brightness g) hmn hmx
    exact ⟨o, hA, by rw [hval]; exact hlo, by rw [hval]; exact hhi⟩

/-- Witness for C10 (amended) at the concrete registry `regW1`, whose single
output has the default [0, 255] clamp range. -/
theorem c10_pwm_bounds_witness :
    ((0 ≤ clampBrightness none grpW1 ∧ clampBrightness none grpW1 ≤ 100) ∧
    (∀ mn mx b : ℤ, pwmScalar mn mx b = pwmScalar mn (max mn mx) b) ∧
    (∀ cid inner, (cid, inner) ∈ buildGroupPwmMap regW1 "g1" false false none →
      ∀ dIdx slots, (dIdx, slots) ∈ inner →
        slots.length = 4 ∧
        ∀ k : ℕ, k < 4 →
          slots.getD k (-1) = -1 ∨
          ∃ o, addressesSlot (resolveOutputIds regW1.drivers grpW1.ledIds)
                false false cid dIdx k o ∧
            o.minPwm ≤ slots.getD k (-1) ∧
            slots.getD k (-1) ≤ max o.minPwm o.maxPwm)) :=
  c10_pwm_bounds regW1 "g1" none grpW1 (by with_unfolding_all rfl)
    (by with_unfolding_all decide)


/-! ## Claim C4: fault events and disabled outputs -/

/-- C4 counterexample: the fault event addresses the disabled faulty output
`outC4` (both its channel and slot conditions hold) and the event does match
an output (the enabled sibling `outC4b`), yet `outC4` is left disabled AND
faulty — its fault flag is not cleared, because `_match_outputs` skips
disabled outputs and the clearing branch is dead code. -/
theorem c4_counterexample :
    applyFaultEvent regC4b "c1" evC4 true =
      ({ regC4b with
         drivers := [{ drvC4b with
           outputs := [outC4, { outC4b with faulty := true }] }] }, ["o2"]) ∧
    channelCond evC4.c outC4 = true ∧ slotCond evC4.i outC4 = true ∧
    outC4.disabled = true ∧ outC4.faulty = true := by
  refine ⟨by with_unfolding_all rfl, by with_unfolding_all decide,
    by with_unfolding_all decide, rfl, rfl⟩

/-- C4 (amended): `_match_outputs` never yields a disabled output, so the
fault-clearing branch for disabled outputs is unreachable and every disabled
output survives a fault event verbatim (its fault flag is NOT cleared);
non-disabled matched outputs get the reported fault value, with an actual
update and a changed-id entry only when it differs from the stored flag. -/
theorem c4_fault_disabled_skipped (r : Registry) (cid : String)
    (ev : FaultEventFields) (isFault : Bool) :
    (∀ (useChannel : Bool) (d : Driver) (o : Output),
      outputMatched cid ev.dvr ev.c ev.i useChannel d o = true →
        o.disabled = false) ∧
    (∀ o : Output, o.disabled = false →
      faultOutputUpdate isFault o =
        (if o.faulty != isFault then { o with faulty := isFault } else o) ∧
      (o.faulty = isFault → faultOutputUpdate isFault o = o ∧
        faultOutputChanged isFault o = false)) ∧
    (∀ d ∈ r.drivers, ∀ o ∈ d.outputs, o.disabled = true →
      ∃ d2 ∈ (applyFaultEvent r cid ev isFault).1.drivers, o ∈ d2.outputs) := by
  have hskip : ∀ (useChannel : Bool) (d : Driver) (o : Output),
      outputMatched cid ev.dvr ev.c ev.i useChannel d o = true →
        o.disabled = false := by
    intro useChannel d o h
    simp only [outputMatched, Bool.and_eq_true] at h
    obtain ⟨he, -⟩ := h
    simp only [outputEligible, Bool.and_eq_true, Bool.not_eq_true'] at he
    exact he.2
  refine ⟨hskip, fun o hdis => ?_, fun d hd o ho hdis => ?_⟩
  · refine ⟨by simp [faultOutputUpdate, hdis], fun hf => ?_⟩
    constructor
    · simp [faultOutputUpdate, hdis, hf]
    · simp [faultOutputChanged, hdis, hf]
  · have hnm : ∀ useChannel : Bool,
        outputMatched cid ev.dvr ev.c ev.i useChannel d o = false := by
      intro useChannel
      by_contra hcon
      rw [Bool.not_eq_false] at hcon
      rw [hskip useChannel d o hcon] at hdis
      exact Bool.false_ne_true hdis
    by_cases hemp : ((matchPairs r.drivers cid ev.dvr ev.c ev.i).1.isEmpty &&
        (matchPairs r.drivers cid ev.dvr ev.c ev.i).2.isEmpty) = true
    · refine ⟨d, ?_, ho⟩
      simp only [applyFaultEvent, hemp, if_true]
      exact hd
    · refine ⟨{ d with outputs := d.outputs.map (fun o2 =>
        if outputMatched cid ev.dvr ev.c ev.i
            (!(matchPairs r.drivers cid ev.dvr ev.c ev.i).1.isEmpty) d o2 then
          faultOutputUpdate isFault o2
        else o2) }, ?_, ?_⟩
      · simp only [applyFaultEvent, hemp, Bool.false_eq_true, if_false]
        exact List.mem_map.mpr ⟨d, hd, rfl⟩
      · exact List.mem_map.mpr ⟨o, ho, by simp [hnm]⟩

/-- Witness for C4 (amended): the disabled faulty output `outC4` survives the
fault event on `regC4b` verbatim inside some post-state driver. -/
theorem c4_fault_disabled_skipped_witness :
    ∃ d2 ∈ (applyFaultEvent regC4b "c1" evC4 true).1.drivers, outC4 ∈ d2.outputs :=
  (c4_fault_disabled_skipped regC4b "c1" evC4 true).2.2 drvC4b
    (List.mem_cons_self drvC4b []) outC4 (List.mem_cons_self outC4 [outC4b]) rfl


/-! ## Claim C5: driver re-upsert and slot preservation -/

/-- The normalised output list always has the fixed four slots. -/
theorem normalizeDriverOutputs_length (driverId : String)
    (incoming : List OutputPayload) (existing : List Output) :
    (normalizeDriverOutputs driverId incoming existing).length = 4 := rfl

/-- The upserted value is a member of the updated list. -/
theorem upsertBy_self_mem {α : Type} (key : α → String) (k : String) (v : α)
    (l : List α) : v ∈ upsertBy key k v l := by
  unfold upsertBy
  by_cases h : l.any (fun a => key a = k) = true
  · rw [if_pos h]
    obtain ⟨a, ha, hak⟩ := List.any_eq_true.mp h
    exact List.mem_map.mpr ⟨a, ha, by rw [if_pos (of_decide_eq_true hak)]⟩
  · rw [if_neg h]
    exact List.mem_append_right _ (List.mem_singleton.mpr rfl)

/-- Re-normalising a slot against a stored output that still satisfies the
normalisation invariant, with an all-absent incoming payload, preserves the
output verbatim. -/
theorem normalizeSlot_preserve (driverId : String) (o : Output)
    (hinv : normalizedInv o) :
    normalizeSlot driverId o.slot emptyOutputPayload (some o) = o := by
  obtain ⟨hdis, hch, hid⟩ := hinv
  obtain ⟨i, s, nm, ch, dis, fl, pw, lv, mn, mx, tg⟩ := o
  cases dis with
  | false =>
    simp [normalizeSlot, emptyOutputPayload, orStr, hid, hch]
  | true =>
    obtain ⟨hl, hp, ht, hf⟩ := hdis rfl
    simp [normalizeSlot, emptyOutputPayload, orStr, hid, hch, hl, hp, ht, hf]
    exact ⟨hf, hp.symm, hl.symm, ht.symm⟩

/-- C5 counterexample: re-upserting driver `d1` with an empty outputs payload
does NOT preserve the existing slot-0 output's field values: the disabled
output `outC5` had pwm 7 (drifted through a status snapshot, which does not
skip disabled outputs), and re-normalisation resets its pwm to `min_pwm` = 0. -/
theorem c5_counterexample :
    (upsertDriver "fresh" regC5 payC5).2.outputs.map (fun o => (o.slot, o.pwm)) =
      [(0, 0), (1, 0), (2, 0), (3, 0)] ∧
    payC5.id = some "d1" ∧ payC5.outputs = [] ∧
    regC5.drivers.map (fun d => (d.id, d.outputs)) = [("d1", [outC5])] ∧
    outC5.slot = 0 ∧ outC5.pwm = 7 ∧ (0 : ℤ) ≠ 7 := by
  refine ⟨by with_unfolding_all rfl, rfl, rfl, by with_unfolding_all rfl, rfl,
    rfl, by decide⟩

/-- C5 (amended): every driver upsert stores exactly 4 output slots and the
stored record lands in the registry; re-upserting an existing driver
re-normalises each of the four slots against the previous outputs, so a slot
absent from the incoming payload is preserved verbatim exactly when the
existing output still satisfies the normalisation invariant (otherwise the
re-applied disabled coercion overwrites drifted fields), and a slot present
in neither incoming nor existing outputs gets the default values. -/
theorem c5_driver_upsert_slots (freshId : String) (r : Registry)
    (p : DriverPayload) :
    (upsertDriver freshId r p).2.outputs.length = 4 ∧
    (upsertDriver freshId r p).2 ∈ (upsertDriver freshId r p).1.drivers ∧
    (∀ d0, r.drivers.find? (fun d => d.id = orStr p.id freshId) = some d0 →
      (upsertDriver freshId r p).2.outputs =
        normalizeDriverOutputs (orStr p.id freshId) p.outputs d0.outputs) ∧
    (∀ (driverId : String) (incoming : List OutputPayload) (existing : List Output),
      ∀ k : ℕ, k < 4 →
        (normalizeDriverOutputs driverId incoming existing).getD k
            (defaultOutput driverId 0) =
          normalizeSlot driverId (k : ℤ)
            ((lastPayloadWithSlot incoming (k : ℤ)).getD emptyOutputPayload)
            (lastWithSlot existing (k : ℤ))) ∧
    (∀ (driverId : String) (s : ℤ),
      normalizeSlot driverId s emptyOutputPayload none = defaultOutput driverId s) ∧
    (∀ (driverId : String) (o : Output), normalizedInv o →
      normalizeSlot driverId o.slot emptyOutputPayload (some o) = o) := by
  refine ⟨normalizeDriverOutputs_length _ _ _, ?_, ?_, ?_, fun driverId s => rfl,
    fun driverId o h => normalizeSlot_preserve driverId o h⟩
  · simp only [upsertDriver]
    apply upsertBy_self_mem
  · intro d0 hfind
    simp only [upsertDriver]
    rw [hfind]
  · intro driverId incoming existing k hk
    rcases k with _|_|_|_|k
    · rfl
    · rfl
    · rfl
    · rfl
    · exact absurd hk (by omega)

/-- Witness for C5 (amended): the upsert on `regC5` yields four slots
re-normalised against `drvC5`'s stored outputs, and a fully normalised output
is preserved verbatim. -/
theorem c5_driver_upsert_slots_witness :
    (upsertDriver "fresh" regC5 payC5).2.outputs.length = 4 ∧
    ((upsertDriver "fresh" regC5 payC5).2.outputs =
      normalizeDriverOutputs (orStr payC5.id "fresh") payC5.outputs
        drvC5.outputs) ∧
    normalizeSlot "d1" (mkOutput "o1" 0 [0]).slot emptyOutputPayload
      (some (mkOutput "o1" 0 [0])) = mkOutput "o1" 0 [0] :=
  ⟨(c5_driver_upsert_slots "fresh" regC5 payC5).1,
   (c5_driver_upsert_slots "fresh" regC5 payC5).2.2.1 drvC5
     (by with_unfolding_all rfl),
   (c5_driver_upsert_slots "fresh" regC5 payC5).2.2.2.2.2 "d1"
     (mkOutput "o1" 0 [0])
     ⟨fun h => absurd h (by decide), by with_unfolding_all decide, by decide⟩⟩


/-! ## Claim C9: the CAN-bridge flag invariant -/

/-- The stored controller record carries the resolved id. -/
theorem upsertController_stored_id (freshId : String) (r : Registry)
    (p : ControllerPayload) :
    (upsertController freshId r p).2.id = orStr p.id freshId := by
  simp only [upsertController]
  cases hfind : r.controllers.find? (fun c => c.id = orStr p.id freshId) with
  | none => rfl
  | some c =>
    have h2 := List.find?_some hfind
    simp only [decide_eq_true_eq] at h2
    exact h2

/-- The post-upsert controller list, as an equation on the public pieces. -/
theorem upsertController_controllers (freshId : String) (r : Registry)
    (p : ControllerPayload) :
    (upsertController freshId r p).1.controllers =
      (if (upsertController freshId r p).2.hasCanInterface then
        (upsertBy (fun c => c.id) (orStr p.id freshId) (upsertController freshId r p).2
            r.controllers).map
          (fun c => if c.id = orStr p.id freshId then c
                    else { c with hasCanInterface := false })
      else
        upsertBy (fun c => c.id) (orStr p.id freshId) (upsertController freshId r p).2
          r.controllers) := rfl

/-- An element of an upserted list that does not carry the upserted key was
already in the original list. -/
theorem upsertBy_mem_other {α : Type} (key : α → String) (k : String) (v : α)
    (l : List α) (c : α) (hkv : key v = k) (hc : c ∈ upsertBy key k v l)
    (hne : key c ≠ k) : c ∈ l := by
  unfold upsertBy at hc
  by_cases h : l.any (fun a => key a = k) = true
  · rw [if_pos h] at hc
    obtain ⟨a, ha, hae⟩ := List.mem_map.mp hc
    by_cases hak : key a = k
    · rw [if_pos hak] at hae
      exact absurd (hae ▸ hkv) hne
    · rw [if_neg hak] at hae
      exact hae ▸ ha
  · rw [if_neg h] at hc
    rcases List.mem_append.mp hc with h1 | h1
    · exact h1
    · exact absurd (List.mem_singleton.mp h1 ▸ hkv) hne

/-- Upserting with a key-carrying value preserves key uniqueness. -/
theorem upsertBy_ids_nodup (l : List Controller) (cid : String) (stored : Controller)
    (hsid : stored.id = cid) (hnd : (l.map (fun c => c.id)).Nodup) :
    ((upsertBy (fun c => c.id) cid stored l).map (fun c => c.id)).Nodup := by
  unfold upsertBy
  by_cases h : l.any (fun c => c.id = cid) = true
  · rw [if_pos h]
    have heq : (l.map (fun c => if c.id = cid then stored else c)).map
        (fun c => c.id) = l.map (fun c => c.id) := by
      rw [List.map_map]
      apply List.map_congr_left
      intro a _
      by_cases hac : a.id = cid
      · simp [hac, hsid]
      · simp [hac]
    rw [heq]
    exact hnd
  · rw [if_neg h]
    rw [List.map_append]
    simp only [List.map_cons, List.map_nil]
    rw [hsid]
    have hnin : cid ∉ l.map (fun c => c.id) := by
      intro hin
      obtain ⟨a, ha, hac⟩ := List.mem_map.mp hin
      exact h (List.any_eq_true.mpr ⟨a, ha, decide_eq_true hac⟩)
    simp [List.nodup_append, hnd, hnin]

/-- If every element a filter keeps carries one fixed key and the keys are
duplicate-free, the filter keeps at most one element. -/
theorem filter_len_le_one_of_key (p : Controller → Bool) (l : List Controller)
    (cid : String) (hnd : (l.map (fun c => c.id)).Nodup)
    (h : ∀ c ∈ l, p c = true → c.id = cid) :
    (l.filter p).length ≤ 1 := by
  induction l with
  | nil => simp
  | cons a t ih =>
    simp only [List.map_cons, List.nodup_cons] at hnd
    obtain ⟨hna, hnt⟩ := hnd
    rw [List.filter_cons]
    by_cases hpa : p a = true
    · rw [if_pos hpa]
      have ht0 : t.filter p = [] := by
        rw [List.filter_eq_nil_iff]
        intro c hc hpc
        apply hna
        rw [h a (List.mem_cons_self a t) hpa,
            ← h c (List.mem_cons_of_mem a hc) hpc]
        exact List.mem_map.mpr ⟨c, hc, rfl⟩
      rw [ht0]
      simp
    · rw [if_neg hpa]
      exact ih hnt (fun c hc hpc => h c (List.mem_cons_of_mem a hc) hpc)

/-- Upserting a record that does not carry the CAN flag never increases the
number of flagged controllers. -/
theorem upsertBy_can_le (l : List Controller) (cid : String) (stored : Controller)
    (hflag : stored.hasCanInterface = false) :
    ((upsertBy (fun c => c.id) cid stored l).filter
      (fun c => c.hasCanInterface)).length ≤
      (l.filter (fun c => c.hasCanInterface)).length := by
  unfold upsertBy
  by_cases h : l.any (fun c => c.id = cid) = true
  · rw [if_pos h]
    clear h
    induction l with
    | nil => simp
    | cons a t ih =>
      simp only [List.map_cons, List.filter_cons]
      by_cases hac : a.id = cid
      · rw [if_pos hac]
        simp only [hflag, Bool.false_eq_true, if_false]
        cases hfa : a.hasCanInterface
        · simpa using ih
        · simp only [if_true]
          exact le_trans ih (by simp)
      · rw [if_neg hac]
        cases hfa : a.hasCanInterface
        · simpa using ih
        · simpa using Nat.succ_le_succ ih
  · rw [if_neg h]
    simp [List.filter_append, hflag]

/-- One controller upsert preserves id-uniqueness and the at-most-one-CAN
invariant. -/
theorem upsertController_inv (freshId : String) (r : Registry)
    (p : ControllerPayload)
    (hnd : (r.controllers.map (fun c => c.id)).Nodup) (hcnt : canCount r ≤ 1) :
    ((upsertController freshId r p).1.controllers.map (fun c => c.id)).Nodup ∧
      canCount (upsertController freshId r p).1 ≤ 1 := by
  have hsid := upsertController_stored_id freshId r p
  have hup := upsertBy_ids_nodup r.controllers (orStr p.id freshId)
    (upsertController freshId r p).2 hsid hnd
  simp only [canCount, upsertController_controllers]
  by_cases hflag : (upsertController freshId r p).2.hasCanInterface = true
  · rw [if_pos hflag]
    have heq : ((upsertBy (fun c => c.id) (orStr p.id freshId)
        (upsertController freshId r p).2 r.controllers).map
          (fun c => if c.id = orStr p.id freshId then c
                    else { c with hasCanInterface := false })).map (fun c => c.id) =
        (upsertBy (fun c => c.id) (orStr p.id freshId)
          (upsertController freshId r p).2 r.controllers).map (fun c => c.id) := by
      rw [List.map_map]
      apply List.map_congr_left
      intro a _
      by_cases hac : a.id = orStr p.id freshId
      · simp [hac]
      · simp [hac]
    refine ⟨by rw [heq]; exact hup, ?_⟩
    apply filter_len_le_one_of_key _ _ (orStr p.id freshId)
    · rw [heq]
      exact hup
    · intro c hc hpc
      obtain ⟨c0, hc0, hceq⟩ := List.mem_map.mp hc
      by_cases hac : c0.id = orStr p.id freshId
      · rw [← hceq]
        simp [hac]
      · rw [← hceq] at hpc
        simp [hac] at hpc
  · rw [if_neg hflag]
    rw [Bool.not_eq_true] at hflag
    exact ⟨hup, le_trans (upsertBy_can_le r.controllers (orStr p.id freshId)
      (upsertController freshId r p).2 hflag) hcnt⟩

/-- C9: after every controller upsert at most one controller fleet-wide holds
the CAN-bridge flag: an upsert whose stored record carries the flag clears it
on every other controller, an upsert whose stored record does not carry it
leaves every other controller untouched, and any upsert sequence from the
empty registry keeps the flagged count at most one. -/
theorem c9_single_can_bridge :
    (∀ (freshId : String) (r : Registry) (p : ControllerPayload),
      (upsertController freshId r p).2.hasCanInterface = true →
      ∀ c ∈ (upsertController freshId r p).1.controllers,
        c.id ≠ orStr p.id freshId → c.hasCanInterface = false) ∧
    (∀ (freshId : String) (r : Registry) (p : ControllerPayload),
      (upsertController freshId r p).2.hasCanInterface = false →
      ∀ c ∈ (upsertController freshId r p).1.controllers,
        c.id ≠ orStr p.id freshId → c ∈ r.controllers) ∧
    (∀ ps : List (String × ControllerPayload),
      canCount (ps.foldl (fun r q => (upsertController q.1 r q.2).1)
        emptyRegistry) ≤ 1) := by
  refine ⟨?_, ?_, ?_⟩
  · intro freshId r p hflag c hc hne
    rw [upsertController_controllers, if_pos hflag] at hc
    obtain ⟨c0, hc0, hceq⟩ := List.mem_map.mp hc
    by_cases hac : c0.id = orStr p.id freshId
    · exfalso
      apply hne
      rw [← hceq]
      simp [hac]
    · rw [← hceq]
      simp [hac]
  · intro freshId r p hflag c hc hne
    rw [upsertController_controllers, if_neg (by rw [hflag]; exact
      Bool.false_ne_true)] at hc
    exact upsertBy_mem_other (fun c => c.id) (orStr p.id freshId)
      (upsertController freshId r p).2 r.controllers c
      (upsertController_stored_id freshId r p) hc hne
  · intro ps
    have main : ∀ (qs : List (String × ControllerPayload)) (r : Registry),
        (r.controllers.map (fun c => c.id)).Nodup → canCount r ≤ 1 →
        (((qs.foldl (fun r q => (upsertController q.1 r q.2).1) r).controllers.map
            (fun c => c.id)).Nodup ∧
          canCount (qs.foldl (fun r q => (upsertController q.1 r q.2).1) r) ≤ 1) := by
      intro qs
      induction qs with
      | nil => intro r h1 h2; exact ⟨h1, h2⟩
      | cons q t ih =>
        intro r h1 h2
        obtain ⟨h1n, h2n⟩ := upsertController_inv q.1 r q.2 h1 h2
        exact ih _ h1n h2n
    exact (main ps emptyRegistry (by simp [emptyRegistry]) (by decide)).2

/-- Witness for C9: upserting the flag-claiming `c2` onto a registry where
`c1` holds the flag clears `c1`, and a concrete upsert sequence from the empty
registry ends with at most one flagged controller. -/
theorem c9_single_can_bridge_witness :
    (∀ c ∈ (upsertController "f" regW9 payC9).1.controllers,
      c.id ≠ orStr payC9.id "f" → c.hasCanInterface = false) ∧
    canCount ([("f", payC9), ("g", payC9)].foldl
      (fun r q => (upsertController q.1 r q.2).1) emptyRegistry) ≤ 1 :=
  ⟨c9_single_can_bridge.1 "f" regW9 payC9 (by with_unfolding_all rfl),
   c9_single_can_bridge.2.2 [("f", payC9), ("g", payC9)]⟩

end S2J
